import Mathlib

/-!
Verification of the editorial core of Wobbly (`src/shared/WobblyProject.cpp`).

The development shallowly embeds the project aggregate (`WobblyProject`) and the
operations the claims are about.  C++ `int` frame numbers are embedded as `ℕ`
where the source guards `frame < 0 || frame >= N` (only the index-translation
functions, whose negative-input clamping is observable, take `ℤ`); `int16_t`
mic values and the `num_frames[PostDecimate]` counter are embedded as `ℤ`;
`throw WobblyException(...)` becomes `Except.error` with the error classified
by the spec's taxonomy; `std::set<int8_t>` becomes `Finset ℕ`; `std::map`
becomes an association list whose observable content is read through lookups.
`setModified` / Qt signals are not modelled (no claim mentions them).
-/

namespace Wobbly

/-- Errors thrown by the project aggregate (`WobblyException` in the source),
classified according to the spec's error taxonomy (§7). -/
inductive WobblyError where
  | outOfRange
  | invalidMatchChar
  | noSuchPreset
  | noSuchSection
  | nameInUse
  | invalidName
  | parseError
  | noMics
  deriving DecidableEq

instance {ε α : Type} [DecidableEq ε] [DecidableEq α] : DecidableEq (Except ε α) := fun a b =>
  match a, b with
  | .error e₁, .error e₂ => decidable_of_iff (e₁ = e₂) (by simp)
  | .error _, .ok _ => isFalse (fun h => Except.noConfusion h)
  | .ok _, .error _ => isFalse (fun h => Except.noConfusion h)
  | .ok a₁, .ok a₂ => decidable_of_iff (a₁ = a₂) (by simp)

/-- `PatternGuessingFailureReason` (WobblyTypes.h). -/
inductive FailureReason where
  | sectionTooShort
  | ambiguousMatchPattern
  deriving DecidableEq

/-- `FailedPatternGuessing` (WobblyTypes.h). -/
structure FailedPatternGuessing where
  start : ℕ
  reason : FailureReason
  deriving DecidableEq

/-- `DropDuplicate` (WobblyTypes.h). -/
inductive DropDuplicate where
  | dropFirstDuplicate
  | dropSecondDuplicate
  | dropUglierDuplicatePerCycle
  | dropUglierDuplicatePerSection
  deriving DecidableEq

/-- `Patterns` bit values (WobblyTypes.h): CCCNN = 1, CCNNN = 2, CCCCC = 4.
`use_patterns` is an `int` bitmask, embedded as `ℕ`. -/
def patternCCCNN : ℕ := 1
def patternCCNNN : ℕ := 2
def patternCCCCC : ℕ := 4

/-- A per-frame mic array `std::array<int16_t, 5>`.  Modelled from the spec:
`match_char_to_index` (`p→0, c→1, n→2, b→3, u→4`) lives in a header that is
not among the sources, so the five columns are named fields here and
`Mic5.atChar` plays the role of indexing by `matchCharToIndex`. -/
structure Mic5 where
  p : ℤ
  c : ℤ
  n : ℤ
  b : ℤ
  u : ℤ
  deriving DecidableEq

/-- Indexing a mic array by match character: `mics[frame][matchCharToIndex ch]`. -/
def Mic5.atChar (m : Mic5) (ch : Char) : ℤ :=
  if ch = 'p' then m.p
  else if ch = 'c' then m.c
  else if ch = 'n' then m.n
  else if ch = 'b' then m.b
  else m.u

/-- A mic entry within the `int16_t` range (the mic values are `int16_t`
in the source). -/
def micBounded (m : Mic5) : Prop :=
  -32768 ≤ m.p ∧ m.p ≤ 32767 ∧ -32768 ≤ m.c ∧ m.c ≤ 32767 ∧
  -32768 ≤ m.n ∧ m.n ≤ 32767 ∧ -32768 ≤ m.b ∧ m.b ≤ 32767 ∧
  -32768 ≤ m.u ∧ m.u ≤ 32767

instance (m : Mic5) : Decidable (micBounded m) := by
  unfold micBounded
  infer_instance

/-- `Preset` (WobblyTypes.h).  `PresetsModel` is a `std::map` keyed by name;
it is embedded as a list of presets read through name lookups. -/
structure Preset where
  name : String
  contents : String
  deriving DecidableEq

/-- `Section` (WobblyTypes.h). `SectionsModel` is a `std::map` keyed by `start`. -/
structure Section where
  start : ℕ
  presets : List String
  deriving DecidableEq

/-- `FrameRange` (WobblyTypes.h). -/
structure FrameRange where
  first : ℕ
  last : ℕ
  deriving DecidableEq

/-- `CustomList` (WobblyTypes.h); `ranges` is keyed by `FrameRange::first`. -/
structure CustomList where
  name : String
  preset : String
  position : ℕ
  ranges : List (ℕ × FrameRange)
  deriving DecidableEq

/-- `FreezeFrame` (WobblyTypes.h). -/
structure FreezeFrame where
  first : ℕ
  last : ℕ
  replacement : ℕ
  deriving DecidableEq

/-- `PatternGuessing` (WobblyTypes.h).  `failures` is a `std::map` keyed by
`FailedPatternGuessing::start`, embedded as an association list. -/
structure PatternGuessing where
  method : ℕ
  minimumLength : ℤ
  thirdNMatch : ℕ
  decimation : ℕ
  usePatterns : ℕ
  failures : List (ℕ × FailedPatternGuessing)
  deriving DecidableEq

/-- Map lookup for the failures map (`std::map::count` / `at`). -/
def failureLookup (l : List (ℕ × FailedPatternGuessing)) (k : ℕ) : Option FailedPatternGuessing :=
  (l.find? (fun e => e.1 = k)).map (fun e => e.2)

/-- `std::map::erase(key)` on the failures map. -/
def failureErase (l : List (ℕ × FailedPatternGuessing)) (k : ℕ) : List (ℕ × FailedPatternGuessing) :=
  l.filter (fun e => ¬ e.1 = k)

/-- The snapshot taken by `WobblyProject::commit` (`UndoStep` in the source).
Under Lean's value semantics the deep copy of each custom list's range map is
the identity, so `commit`'s range-cloning loop has no separate embedding. -/
structure UndoStep where
  description : String
  «matches» : List Char
  decimatedFrames : List (Finset ℕ)
  patternGuessing : PatternGuessing
  presets : List Preset
  customLists : List CustomList
  combedFrames : Finset ℕ
  frozenFrames : List FreezeFrame
  sections : List Section
  bookmarks : List (ℕ × String)
  deriving DecidableEq

/-- The project aggregate (`WobblyProject`).  `numFrames` is `num_frames[0]`
(`PostSource`) and `numFramesDecimated` is the stored counter `num_frames[1]`
(`PostDecimate`).  An empty `«matches»` / `originalMatches` / `mics` list means
the array has not been allocated yet, exactly as a zero-length vector does in
the source. -/
structure Project where
  numFrames : ℕ
  numFramesDecimated : ℤ
  «matches» : List Char
  originalMatches : List Char
  mics : List Mic5
  decimatedFrames : List (Finset ℕ)
  sections : List Section
  presets : List Preset
  customLists : List CustomList
  combedFrames : Finset ℕ
  frozenFrames : List FreezeFrame
  bookmarks : List (ℕ × String)
  patternGuessing : PatternGuessing
  undoStack : List UndoStep
  redoStack : List UndoStep
  undoSteps : ℕ
  deriving DecidableEq

/-- `WobblyProject::isValidMatchChar`. -/
def isValidMatchChar (ch : Char) : Bool :=
  ch = 'p' || ch = 'c' || ch = 'n' || ch = 'b' || ch = 'u'

/-- The boundary coercion performed inside `WobblyProject::setMatch`:
at frame 0, `b → n` and `p → u`; at the final source frame, `n → b` and
`u → p` (the two branches are an `if` / `else if`, in that order). -/
def setMatchCoerce (numFrames frame : ℕ) (ch : Char) : Char :=
  if frame = 0 then
    if ch = 'b' then 'n' else if ch = 'p' then 'u' else ch
  else if frame = numFrames - 1 then
    if ch = 'n' then 'b' else if ch = 'u' then 'p' else ch
  else ch

/-- `«matches»` lazily allocated to `num_frames_source × 'c'` on first write. -/
def allocMatches (p : Project) : List Char :=
  if p.«matches».isEmpty then List.replicate p.numFrames 'c' else p.«matches»

/-- `WobblyProject::setMatch`. -/
def setMatch (p : Project) (frame : ℕ) (ch : Char) : Except WobblyError Project :=
  if ¬ frame < p.numFrames then .error .outOfRange
  else if ¬ isValidMatchChar ch then .error .invalidMatchChar
  else
    .ok { p with «matches» := (allocMatches p).set frame (setMatchCoerce p.numFrames frame ch) }

/-- `WobblyProject::getMatch`. -/
def getMatch (p : Project) (frame : ℕ) : Except WobblyError Char :=
  if ¬ frame < p.numFrames then .error .outOfRange
  else .ok (if ¬ p.«matches».isEmpty then p.«matches».getD frame 'c'
            else if ¬ p.originalMatches.isEmpty then p.originalMatches.getD frame 'c'
            else 'c')

/-- `WobblyProject::getMics` (neutral zeros when the array is empty). -/
def getMics (p : Project) (frame : ℕ) : Except WobblyError Mic5 :=
  if ¬ frame < p.numFrames then .error .outOfRange
  else .ok (if ¬ p.mics.isEmpty then p.mics.getD frame ⟨0, 0, 0, 0, 0⟩ else ⟨0, 0, 0, 0, 0⟩)

/-- `WobblyProject::addDecimatedFrame`.  `decimated_frames[frame / 5]` is a
vector access; in any reachable state the vector has `(N-1)/5 + 1` entries, so
it is embedded with `getD` / `set` (which are the identity out of range). -/
def addDecimatedFrame (p : Project) (frame : ℕ) : Except WobblyError Project :=
  if ¬ frame < p.numFrames then .error .outOfRange
  else
    let ds := p.decimatedFrames.getD (frame / 5) ∅
    -- Don't allow decimating all the frames in a cycle.
    if ds.card = 5 - 1 then .ok p
    else
      let p' := { p with decimatedFrames := p.decimatedFrames.set (frame / 5) (insert (frame % 5) ds) }
      if frame % 5 ∈ ds then .ok p'
      else .ok { p' with numFramesDecimated := p'.numFramesDecimated - 1 }

/-- `WobblyProject::deleteDecimatedFrame`. -/
def deleteDecimatedFrame (p : Project) (frame : ℕ) : Except WobblyError Project :=
  if ¬ frame < p.numFrames then .error .outOfRange
  else
    let ds := p.decimatedFrames.getD (frame / 5) ∅
    let p' := { p with decimatedFrames := p.decimatedFrames.set (frame / 5) (ds.erase (frame % 5)) }
    if frame % 5 ∈ ds then .ok { p' with numFramesDecimated := p'.numFramesDecimated + 1 }
    else .ok p'

/-- `WobblyProject::isDecimatedFrame`. -/
def isDecimatedFrame (p : Project) (frame : ℕ) : Except WobblyError Bool :=
  if ¬ frame < p.numFrames then .error .outOfRange
  else .ok (decide (frame % 5 ∈ p.decimatedFrames.getD (frame / 5) ∅))

/-- `WobblyProject::clearDecimatedFramesFromCycle`. -/
def clearDecimatedFramesFromCycle (p : Project) (frame : ℕ) : Except WobblyError Project :=
  if ¬ frame < p.numFrames then .error .outOfRange
  else
    let cycle := frame / 5
    let newFrames := (p.decimatedFrames.getD cycle ∅).card
    .ok { p with decimatedFrames := p.decimatedFrames.set cycle ∅,
                 numFramesDecimated := p.numFramesDecimated + newFrames }

/-- `WobblyProject::isNameSafeForPython`: every character is a letter, an
underscore, or (except in first position) a digit. -/
def isNameSafeForPython (name : List Char) : Bool :=
  name.enum.all (fun e =>
    ('a' ≤ e.2 && e.2 ≤ 'z') || ('A' ≤ e.2 && e.2 ≤ 'Z') ||
    (decide (0 < e.1) && '0' ≤ e.2 && e.2 ≤ '9') || e.2 = '_')

/-- `WobblyProject::presetExists` (`presets->count(name)`). -/
def presetExists (p : Project) (presetName : String) : Bool :=
  p.presets.any (fun pr => pr.name = presetName)

/-- `WobblyProject::getPresetContents` for a preset known to exist. -/
def getPresetContents (p : Project) (presetName : String) : String :=
  ((p.presets.find? (fun pr => pr.name = presetName)).map Preset.contents).getD ""

/-- `WobblyProject::renamePreset`.  Note that the `old_name == new_name` early
return comes before the existence check. -/
def renamePreset (p : Project) (oldName newName : String) : Except WobblyError Project :=
  if oldName = newName then .ok p
  else if ¬ presetExists p oldName then .error .noSuchPreset
  else if ¬ isNameSafeForPython newName.toList then .error .invalidName
  else if presetExists p newName then .error .nameInUse
  else
    let contents := getPresetContents p oldName
    .ok { p with
      presets := ⟨newName, contents⟩ :: p.presets.filter (fun pr => ¬ pr.name = oldName),
      sections := p.sections.map (fun s =>
        { s with presets := s.presets.map (fun n => if n = oldName then newName else n) }),
      customLists := p.customLists.map (fun cl =>
        if cl.preset = oldName then { cl with preset := newName } else cl) }

/-- The per-section loop of `WobblyProject::deletePreset`: iterate the index
`j` over the section's preset list, erasing `presets[j]` whenever it equals
the deleted name.  `deleteSectionPreset(start, j)` lives in the models code
(not among the sources); modelled from the spec: `delete_preset(section_start,
index)` erases the entry at `index`.  The iteration is index-based over the
live list, exactly as in the source: after an erase, `j` is still incremented.
The first argument is fuel (the loop runs at most `l.length` iterations, the
count the wrapper passes), keeping the recursion structural. -/
def sectionPresetDeleteLoop (presetName : String) : ℕ → ℕ → List String → List String
  | 0, _, l => l
  | fuel + 1, j, l =>
      if h : j < l.length then
        if l.get ⟨j, h⟩ = presetName then
          sectionPresetDeleteLoop presetName fuel (j + 1) (l.eraseIdx j)
        else
          sectionPresetDeleteLoop presetName fuel (j + 1) l
      else l

/-- `WobblyProject::deletePreset`. -/
def deletePreset (p : Project) (presetName : String) : Except WobblyError Project :=
  if ¬ presetExists p presetName then .error .noSuchPreset
  else
    .ok { p with
      presets := p.presets.filter (fun pr => ¬ pr.name = presetName),
      sections := p.sections.map (fun s =>
        { s with presets := sectionPresetDeleteLoop presetName s.presets.length 0 s.presets }),
      customLists := p.customLists.map (fun cl =>
        if cl.preset = presetName then { cl with preset := "" } else cl) }

/-- `WobblyProject::isPresetInUse`. -/
def isPresetInUse (p : Project) (presetName : String) : Except WobblyError Bool :=
  if ¬ presetExists p presetName then .error .noSuchPreset
  else .ok (p.sections.any (fun s => s.presets.any (fun n => n = presetName)) ||
            p.customLists.any (fun cl => cl.preset = presetName))

/-- The snapshot built at the top of `WobblyProject::commit`. -/
def snapshot (p : Project) (description : String) : UndoStep :=
  { description := description
    «matches» := p.«matches»
    decimatedFrames := p.decimatedFrames
    patternGuessing := p.patternGuessing
    presets := p.presets
    customLists := p.customLists
    combedFrames := p.combedFrames
    frozenFrames := p.frozenFrames
    sections := p.sections
    bookmarks := p.bookmarks }

/-- `WobblyProject::restoreState`.  It restores the nine snapshotted parts;
in particular it does NOT touch `num_frames[PostDecimate]`. -/
def restoreState (p : Project) (state : UndoStep) : Project :=
  { p with
    «matches» := state.«matches»
    decimatedFrames := state.decimatedFrames
    patternGuessing := state.patternGuessing
    presets := state.presets
    customLists := state.customLists
    combedFrames := state.combedFrames
    frozenFrames := state.frozenFrames
    sections := state.sections
    bookmarks := state.bookmarks }

/-- `WobblyProject::commit`: push the snapshot, clear the redo stack, and
evict from the front while the stack is longer than `undo_steps`. -/
def commit (p : Project) (description : String) : Project :=
  let stack := p.undoStack ++ [snapshot p description]
  { p with undoStack := stack.drop (stack.length - p.undoSteps), redoStack := [] }

/-- `WobblyProject::undo`: no-op unless the undo stack has more than one
entry; otherwise move the top to the redo stack and restore from the new top. -/
def undo (p : Project) : Project :=
  if p.undoStack.length ≤ 1 then p
  else
    let top := p.undoStack.getLastD (snapshot p "")
    let rest := p.undoStack.dropLast
    restoreState { p with redoStack := p.redoStack ++ [top], undoStack := rest }
      (rest.getLastD top)

/-- `WobblyProject::redo`: no-op on an empty redo stack; otherwise restore
from the top of the redo stack and move it back to the undo stack. -/
def redo (p : Project) : Project :=
  match p.redoStack.getLast? with
  | none => p
  | some top =>
      { restoreState p top with
        undoStack := p.undoStack ++ [top],
        redoStack := p.redoStack.dropLast }

/-- The fresh project built by the eight-argument `WobblyProject` constructor
(the parts of it that are embedded; `undo_steps` is configurable and taken as
a parameter). -/
def freshProject (numFrames undoSteps : ℕ) : Project :=
  { numFrames := numFrames
    numFramesDecimated := numFrames
    «matches» := []
    originalMatches := []
    mics := []
    decimatedFrames := List.replicate ((numFrames - 1) / 5 + 1) ∅
    sections := [⟨0, []⟩]
    presets := []
    customLists := []
    combedFrames := ∅
    frozenFrames := []
    bookmarks := []
    patternGuessing :=
      { method := 1, minimumLength := 10, thirdNMatch := 1, decimation := 0,
        usePatterns := patternCCCNN + patternCCNNN + patternCCCCC, failures := [] }
    undoStack := []
    redoStack := []
    undoSteps := undoSteps }

/-- Total number of dropped offsets over all decimation cycles. -/
def totalDropped (p : Project) : ℕ :=
  (p.decimatedFrames.map Finset.card).sum

/-- Spec invariant 1: `num_frames_decimated = num_frames_source − Σ
|decimated_frames[c]|`. -/
def decimationCounterInvariant (p : Project) : Prop :=
  p.numFramesDecimated = (p.numFrames : ℤ) - (totalDropped p : ℤ)

instance (p : Project) : Decidable (decimationCounterInvariant p) := by
  unfold decimationCounterInvariant; infer_instance

/-- `WobblyProject::frameNumberAfterDecimation`. -/
def frameNumberAfterDecimation (p : Project) (frame : ℤ) : ℤ :=
  if frame < 0 then 0
  else if (p.numFrames : ℤ) ≤ frame then p.numFramesDecimated
  else
    let f : ℕ := frame.toNat
    let cycleNumber := f / 5
    let positionInCycle := f % 5
    let ds := p.decimatedFrames.getD cycleNumber ∅
    let outFrame : ℤ := (cycleNumber : ℤ) * 5
      - ((List.range cycleNumber).map
          (fun i => ((p.decimatedFrames.getD i ∅).card : ℤ))).sum
      + (((List.range positionInCycle).filter (fun i => i ∉ ds)).length : ℤ)
    if f = p.numFrames - 1 ∧ f % 5 ∈ ds then outFrame - 1 else outFrame

/-- The inner `for (j = 0; j < 5; j++)` loop of
`WobblyProject::frameNumberBeforeDecimation`: decrement `frame` on each
non-dropped offset and return the offset (`Sum.inl`) at which `frame`
reaches `-1`, or the remaining count (`Sum.inr`). -/
def beforeScanOffsets (ds : Finset ℕ) : List ℕ → ℤ → ℕ ⊕ ℤ
  | [], frame => .inr frame
  | j :: js, frame =>
      let frame := if j ∈ ds then frame else frame - 1
      if frame = -1 then .inl j else beforeScanOffsets ds js frame

/-- The outer cycle loop of `WobblyProject::frameNumberBeforeDecimation`;
falling off the end of the vector corresponds to the `throw` after the loop. -/
def beforeScanCycles : List (Finset ℕ) → ℕ → ℤ → Option ℤ
  | [], _, _ => none
  | ds :: rest, i, frame =>
      match beforeScanOffsets ds [0, 1, 2, 3, 4] frame with
      | .inl j => some ((i : ℤ) * 5 + (j : ℤ))
      | .inr frame' => beforeScanCycles rest (i + 1) frame'

/-- `WobblyProject::frameNumberBeforeDecimation`. -/
def frameNumberBeforeDecimation (p : Project) (frame : ℤ) : Option ℤ :=
  let frame := if frame < 0 then 0 else frame
  let frame := if p.numFramesDecimated ≤ frame then p.numFramesDecimated - 1 else frame
  beforeScanCycles p.decimatedFrames 0 frame

/-- Frame `f` is marked for decimation (the raw content of
`decimated_frames`, without the range check of `isDecimatedFrame`). -/
def isDropped (p : Project) (f : ℕ) : Prop :=
  f % 5 ∈ p.decimatedFrames.getD (f / 5) ∅

instance (p : Project) (f : ℕ) : Decidable (isDropped p f) := by
  unfold isDropped; infer_instance

/-- Well-formedness of the decimation state, as maintained by every reachable
project: the cycle vector has `(N−1)/5 + 1` entries, offsets are in `{0..4}`
and mark existing frames, the counter matches invariant 1, and there is at
least one frame. -/
def WFDecimation (p : Project) : Prop :=
  0 < p.numFrames ∧
  p.decimatedFrames.length = (p.numFrames - 1) / 5 + 1 ∧
  (∀ c ∈ List.range p.decimatedFrames.length,
    ∀ o ∈ p.decimatedFrames.getD c ∅, o < 5 ∧ c * 5 + o < p.numFrames) ∧
  decimationCounterInvariant p

instance (p : Project) : Decidable (WFDecimation p) := by
  unfold WFDecimation decimationCounterInvariant; infer_instance

/-- The loop body sequence of `WobblyProject::setRangeMatchesFromPattern`,
iterated over the frames of the range.  Note the source indexes the pattern
with `pattern[i % 5]`, where `i` is the frame number — not with
`i % pattern.length()`.  (Reading `pattern[i % 5]` past the end of the string
is undefined behaviour in C++; `getD`'s default is never reached for the
patterns of length ≥ 5 the callers pass.) -/
def setRangeMatchesLoop (pattern : List Char) (rangeEnd : ℕ) (p : Project) :
    List ℕ → Except WobblyError Project
  | [] => .ok p
  | i :: is => do
      let c := pattern.getD (i % 5) 'c'
      if i = 0 ∧ (c = 'p' ∨ c = 'b') then
        setRangeMatchesLoop pattern rangeEnd p is
      else if i = p.numFrames - 1 ∧ (c = 'n' ∨ c = 'u') then
        if c = 'n' then
          setRangeMatchesLoop pattern rangeEnd (← setMatch p i 'b') is
        else
          setRangeMatchesLoop pattern rangeEnd p is
      else if i = rangeEnd ∧ c = 'n' then
        setRangeMatchesLoop pattern rangeEnd (← setMatch p i 'b') is
      else
        setRangeMatchesLoop pattern rangeEnd (← setMatch p i c) is

/-- `WobblyProject::setRangeMatchesFromPattern`. -/
def setRangeMatchesFromPattern (p : Project) (rangeStart rangeEnd : ℕ)
    (pattern : List Char) : Except WobblyError Project :=
  let rs := min rangeStart rangeEnd
  let re := max rangeStart rangeEnd
  if ¬ re < p.numFrames then .error .outOfRange
  else setRangeMatchesLoop pattern re p (List.range' rs (re - rs + 1))

/-- A JSON value as classified by the reader (rapidjson's type tests): a
number is either integral (`IsInt`) or carries a fractional representation
(`IsDouble`), the latter embedded as an exact rational. -/
inductive JSONValue where
  | jbool (b : Bool)
  | jint (n : ℤ)
  | jdouble (q : ℚ)
  | jstring (s : String)
  | jnull
  deriving DecidableEq

/-- rapidjson `IsNumber`. -/
def JSONValue.isNumber : JSONValue → Bool
  | .jint _ => true
  | .jdouble _ => true
  | _ => false

/-- rapidjson `GetDouble` (exact on the inputs the claims exercise). -/
def JSONValue.getDouble : JSONValue → ℚ
  | .jint n => (n : ℚ)
  | .jdouble q => q
  | _ => 0

/-- The C++ cast `(int)value.GetDouble()`: truncation toward zero. -/
def truncToInt (q : ℚ) : ℤ := q.num.tdiv (q.den : ℤ)

/-- `JSONParameterTypes` (declared type of a recognized filter parameter). -/
inductive JSONParameterTypes where
  | JSONParamInt
  | JSONParamDouble
  | JSONParamBool
  deriving DecidableEq

/-- The recognized `vfm parameters` and their declared types. -/
def vfmValidParameters : List (String × JSONParameterTypes) :=
  [("order", .JSONParamInt), ("cthresh", .JSONParamInt), ("mi", .JSONParamInt),
   ("blockx", .JSONParamInt), ("blocky", .JSONParamInt), ("y0", .JSONParamInt),
   ("y1", .JSONParamInt), ("micmatch", .JSONParamInt),
   ("scthresh", .JSONParamDouble), ("chroma", .JSONParamBool),
   ("mchroma", .JSONParamBool)]

/-- The recognized `vdecimate parameters` and their declared types. -/
def vdecimateValidParameters : List (String × JSONParameterTypes) :=
  [("blockx", .JSONParamInt), ("blocky", .JSONParamInt),
   ("dupthresh", .JSONParamDouble), ("scthresh", .JSONParamDouble),
   ("chroma", .JSONParamBool)]

/-- The three parameter maps a parameters block is read into
(`v*_parameters_int` / `_double` / `_bool`); the reader populates a freshly
constructed project, so they start empty. -/
structure ParamMaps where
  ints : List (String × ℤ)
  doubles : List (String × ℚ)
  bools : List (String × Bool)
  deriving DecidableEq

/-- `std::map::insert`: inserts only when the key is not present yet. -/
def mapInsert {α : Type} (l : List (String × α)) (k : String) (v : α) :
    List (String × α) :=
  if l.any (fun e => e.1 = k) then l else l ++ [(k, v)]

/-- rapidjson `FindMember` on an object. -/
def findMember (json : List (String × JSONValue)) (k : String) : Option JSONValue :=
  (json.find? (fun e => e.1 = k)).map (fun e => e.2)

/-- One iteration of the recognized-parameter loop in
`WobblyProject::readProject`: the version-2 branch accepts any number and
coerces it to the declared type; the other branch (format version 3) requires
the exact JSON type and otherwise throws a parse error. -/
def readOneParameter (projectFormatVersion : ℤ) (maps : ParamMaps)
    (key : String) (ty : JSONParameterTypes) (v : JSONValue) :
    Except WobblyError ParamMaps :=
  if projectFormatVersion = 2 then
    if ¬ v.isNumber then .error .parseError
    else
      match ty with
      | .JSONParamBool => .ok { maps with bools := mapInsert maps.bools key (¬ v.getDouble = 0) }
      | .JSONParamInt => .ok { maps with ints := mapInsert maps.ints key (truncToInt v.getDouble) }
      | .JSONParamDouble => .ok { maps with doubles := mapInsert maps.doubles key v.getDouble }
  else
    match ty, v with
    | .JSONParamBool, .jbool b => .ok { maps with bools := mapInsert maps.bools key b }
    | .JSONParamInt, .jint n => .ok { maps with ints := mapInsert maps.ints key n }
    | .JSONParamDouble, .jdouble q => .ok { maps with doubles := mapInsert maps.doubles key q }
    | _, _ => .error .parseError

/-- One table entry of the recognized-parameter loop of
`WobblyProject::readProject`: look the key up in the document, skip it when
absent, otherwise read it with `readOneParameter`. -/
def paramStep (projectFormatVersion : ℤ) (json : List (String × JSONValue))
    (maps : ParamMaps) (e : String × JSONParameterTypes) :
    Except WobblyError ParamMaps :=
  match findMember json e.1 with
  | none => .ok maps
  | some v => readOneParameter projectFormatVersion maps e.1 e.2 v

/-- The recognized-parameter loop of `WobblyProject::readProject` over one
`valid_parameters` table (used for both the vfm and the vdecimate block). -/
def readParameters (projectFormatVersion : ℤ)
    (table : List (String × JSONParameterTypes))
    (json : List (String × JSONValue)) : Except WobblyError ParamMaps :=
  table.foldlM (paramStep projectFormatVersion json) ⟨[], [], []⟩

/-- `SectionsModel::count(start)`: the section with this start exists. -/
def sectionExists (p : Project) (start : ℕ) : Bool :=
  p.sections.any (fun s => s.start = start)

/-- Minimum of a list of naturals, `none` on the empty list (used to embed
`std::map::upper_bound` on the sections map). -/
def listMin : List ℕ → Option ℕ
  | [] => none
  | x :: xs =>
      match listMin xs with
      | none => some x
      | some m => some (min x m)

/-- `WobblyProject::findNextSection`: smallest section start greater than
`frame` (`sections->upper_bound(frame)`), if any. -/
def findNextSectionStart (p : Project) (frame : ℕ) : Option ℕ :=
  listMin ((p.sections.map Section.start).filter (fun s => frame < s))

/-- `WobblyProject::getSectionEnd`. -/
def getSectionEnd (p : Project) (frame : ℕ) : Except WobblyError ℕ :=
  if ¬ frame < p.numFrames then .error .outOfRange
  else
    match findNextSectionStart p frame with
    | some s => .ok s
    | none => .ok p.numFrames

/-- `INT_MAX`, the initial `mic_dev` of each candidate pattern. -/
def intMax : ℤ := 2147483647

/-- The innermost loop of `WobblyProject::guessSectionPatternsFromMics`:
`mic_dev` of one candidate `(pattern, offset)` over the section's frames
(`section_start` up to `section_end - 1` exclusive). -/
def computeMicDev (p : Project) (pat : List Char) (off : ℕ) (sStart sEnd : ℕ) :
    Except WobblyError ℤ :=
  (List.range' sStart (sEnd - 1 - sStart)).foldlM
    (fun micDev frame => do
      let patternMatch := pat.getD ((frame + off) % pat.length) 'c'
      let otherMatch := if patternMatch = 'c' then 'n' else 'c'
      let frameMics ← getMics p frame
      pure (micDev + max 0 (frameMics.atChar patternMatch - frameMics.atChar otherMatch)))
    0

/-- The per-pattern offset loop: keep the offset with the minimum `mic_dev`,
starting from `pattern_offset = -1`, `mic_dev = INT_MAX`. -/
def bestOffsetForPattern (p : Project) (pat : List Char) (sStart sEnd : ℕ) :
    Except WobblyError (ℤ × ℤ) :=
  (List.range pat.length).foldlM
    (fun acc off => do
      let micDev ← computeMicDev p pat off sStart sEnd
      if micDev < acc.2 then pure ((off : ℤ), micDev) else pure acc)
    (-1, intMax)

/-- The candidate patterns of `guessSectionPatternsFromMics` with their
`use_patterns` gates, in source order. -/
def micsPatternCandidates (usePatterns : ℕ) : List (Bool × List Char) :=
  [(decide (usePatterns &&& patternCCCNN ≠ 0), ['c', 'c', 'c', 'n', 'n']),
   (decide (usePatterns &&& patternCCNNN ≠ 0), ['c', 'c', 'n', 'n', 'n']),
   (decide (usePatterns &&& patternCCCCC ≠ 0), ['c'])]

/-- The outer pattern-selection loop: disabled patterns are skipped
(`continue`), the others contribute their best offset, and the pattern with
the overall minimum `mic_dev` wins (`best_pattern` stays `-1`, here `none`,
when every pattern is disabled). -/
def selectBestPattern (p : Project) (sStart sEnd : ℕ) (usePatterns : ℕ) :
    Except WobblyError (Option (List Char × ℤ) × ℤ) :=
  (micsPatternCandidates usePatterns).foldlM
    (fun best c => do
      if ¬ c.1 then pure best
      else do
        let od ← bestOffsetForPattern p c.2 sStart sEnd
        if od.2 < best.2 then pure (some (c.2, od.1), od.2) else pure best)
    (none, intMax)

/-- Recording a `FailedPatternGuessing` (`failures.erase` then
`failures.insert`). -/
def recordFailure (p : Project) (start : ℕ) (reason : FailureReason) : Project :=
  { p with patternGuessing := { p.patternGuessing with
      failures := (start, ⟨start, reason⟩) :: failureErase p.patternGuessing.failures start } }

/-- The clear loops of `applyPatternGuessingDecimation`: delete the decimated
flag from every frame of the list that has it. -/
def clearRangeLoop (p : Project) (frames : List ℕ) : Except WobblyError Project :=
  frames.foldlM
    (fun q j => do
      let d ← isDecimatedFrame q j
      if d then deleteDecimatedFrame q j else pure q)
    p

/-- One iteration of the duplicate-counting loop of the
`DropUglierDuplicatePerSection` policy. -/
def uglierCountBody (p : Project) (fd : ℤ) (acc : ℕ × ℕ) (i : ℕ) :
    Except WobblyError (ℕ × ℕ) := do
  if ((i % 5 : ℕ) : ℤ) = fd then
    let micN ← getMics p i
    let micC ← getMics p (i + 1)
    if micN.n > micC.c then pure (acc.1 + 1, acc.2) else pure (acc.1, acc.2 + 1)
  else pure acc

/-- One iteration of the cycle loop of `applyPatternGuessingDecimation`.
The accumulator carries the project and the loop-persistent `drop` variable;
`pure acc` on the adjustment branches embeds the source's `continue`. -/
def decimationCycleBody (sStart sEnd firstCycle lastCycle : ℕ) (fd : ℤ)
    (dd : DropDuplicate) (acc : Project × ℤ) (i : ℕ) :
    Except WobblyError (Project × ℤ) := do
  let adjusted : Option ℤ :=
    if dd = .dropUglierDuplicatePerCycle then
      if i = firstCycle then
        if ((sStart % 5 : ℕ) : ℤ) > fd + 1 then none
        else if ((sStart % 5 : ℕ) : ℤ) > fd then some (fd + 1)
        else some acc.2
      else if i = lastCycle then
        if (((sEnd - 1) % 5 : ℕ) : ℤ) < fd then none
        else if (((sEnd - 1) % 5 : ℕ) : ℤ) < fd + 1 then some fd
        else some acc.2
      else some acc.2
    else some acc.2
  match adjusted with
  | none => pure acc
  | some drop₀ => do
      let drop ←
        if dd = .dropUglierDuplicatePerCycle ∧ drop₀ = -1 then do
          let micN ← getMics acc.1 ((i * 5 : ℤ) + fd).toNat
          let micC ← getMics acc.1 ((i * 5 : ℤ) + fd + 1).toNat
          pure (if micN.n > micC.c then fd else (fd + 1).emod 5)
        else pure drop₀
      let p ←
        if i = firstCycle then
          -- Clear decimated frames in the cycle, but only from this section.
          clearRangeLoop acc.1 (List.range' sStart ((i + 1) * 5 - sStart))
        else if i = lastCycle then
          clearRangeLoop acc.1 (List.range' (i * 5) (sEnd - i * 5))
        else
          clearDecimatedFramesFromCycle acc.1 (i * 5)
      let dropFrame : ℤ := (i * 5 : ℤ) + drop
      if (sStart : ℤ) ≤ dropFrame ∧ dropFrame < (sEnd : ℤ) then do
        let p ← addDecimatedFrame p dropFrame.toNat
        pure (p, drop)
      else pure (p, drop)

/-- `WobblyProject::applyPatternGuessingDecimation`. -/
def applyPatternGuessingDecimation (p : Project) (sStart sEnd : ℕ) (fd : ℤ)
    (dd : DropDuplicate) : Except WobblyError Project := do
  -- If the first duplicate is the last frame in the cycle, we have to drop
  -- the same duplicate in the entire section.
  let dd := if dd = .dropUglierDuplicatePerCycle ∧ fd = 4 then
              .dropUglierDuplicatePerSection else dd
  let drop : ℤ ←
    if dd = .dropUglierDuplicatePerSection then do
      let counts ← (List.range' sStart (min sEnd (p.numFrames - 1) - sStart)).foldlM
        (uglierCountBody p fd) (0, 0)
      pure (if counts.1 > counts.2 then fd else (fd + 1).emod 5)
    else if dd = .dropFirstDuplicate then pure fd
    else if dd = .dropSecondDuplicate then pure ((fd + 1).emod 5)
    else pure (-1)
  let firstCycle := sStart / 5
  let lastCycle := (sEnd - 1) / 5
  let acc ← (List.range' firstCycle (lastCycle + 1 - firstCycle)).foldlM
    (decimationCycleBody sStart sEnd firstCycle lastCycle fd dd) (p, drop)
  pure acc.1

/-- The match-assignment loop of the success path of
`guessSectionPatternsFromMics`:
`setMatch(i, pattern[(i + pattern_offset) % size])` over the section. -/
def guessAssignLoop (pat : List Char) (off : ℤ) (p : Project) (sStart sEnd : ℕ) :
    Except WobblyError Project :=
  (List.range' sStart (sEnd - sStart)).foldlM
    (fun q i => setMatch q i (pat.getD (((i : ℤ) + off).emod (pat.length : ℤ)).toNat 'c'))
    p

/-- The first end-of-section fix-up of `guessSectionPatternsFromMics`: when
the section runs to the end of the source, an `n` match on the last frame is
turned into `b`. -/
def boundaryFixN (p : Project) (sectionEnd : ℕ) : Except WobblyError Project :=
  if sectionEnd = p.numFrames then do
    let m ← getMatch p (sectionEnd - 1)
    if m = 'n' then setMatch p (sectionEnd - 1) 'b' else pure p
  else pure p

/-- The second end-of-section fix-up: if the last frame of the section has
much higher mic with `n` match than with `b` match, use the `b` match. -/
def micBoundaryFix (p : Project) (sectionEnd : ℕ) : Except WobblyError Project := do
  let matchIndex ← getMatch p (sectionEnd - 1)
  if matchIndex = 'n' then do
    let m ← getMics p (sectionEnd - 1)
    if m.n > m.b * 2 then setMatch p (sectionEnd - 1) 'b' else pure p
  else pure p

/-- The decimation phase of the success path: for the all-`c` pattern delete
every decimated frame of the section, otherwise run
`applyPatternGuessingDecimation` with `first_duplicate = 4 - pattern_offset`. -/
def applyDecimationStage (p : Project) (sectionStart sectionEnd : ℕ)
    (pat : List Char) (off : ℤ) (dropDuplicate : DropDuplicate) :
    Except WobblyError Project :=
  if pat = ['c'] then
    (List.range' sectionStart (sectionEnd - sectionStart)).foldlM
      deleteDecimatedFrame p
  else
    applyPatternGuessingDecimation p sectionStart sectionEnd (4 - off) dropDuplicate

/-- The final step of the success path: `pattern_guessing.failures.erase(
section_start)`. -/
def eraseFailureStage (p : Project) (sectionStart : ℕ) : Project :=
  { p with patternGuessing := { p.patternGuessing with
      failures := failureErase p.patternGuessing.failures sectionStart } }

/-- The success path of `guessSectionPatternsFromMics` (everything after the
ambiguity test): assign the pattern's matches, apply the two end-of-section
fix-ups, apply the decimation, erase the failure entry, return `true`. -/
def guessSuccessPath (p : Project) (sectionStart sectionEnd : ℕ)
    (pat : List Char) (off : ℤ) (dropDuplicate : DropDuplicate) :
    Except WobblyError (Bool × Project) := do
  let p ← guessAssignLoop pat off p sectionStart sectionEnd
  let p ← boundaryFixN p sectionEnd
  let p ← micBoundaryFix p sectionEnd
  let p ← applyDecimationStage p sectionStart sectionEnd pat off dropDuplicate
  pure (true, eraseFailureStage p sectionStart)

/-- `WobblyProject::guessSectionPatternsFromMics`. -/
def guessSectionPatternsFromMics (p : Project) (sectionStart : ℕ)
    (minimumLength : ℤ) (usePatterns : ℕ) (dropDuplicate : DropDuplicate) :
    Except WobblyError (Bool × Project) := do
  if p.mics.isEmpty then .error .noMics
  else if ¬ sectionStart < p.numFrames then .error .outOfRange
  else if ¬ sectionExists p sectionStart then .error .noSuchSection
  else do
    let sectionEnd ← getSectionEnd p sectionStart
    if ((sectionEnd : ℤ) - (sectionStart : ℤ) - 1) < minimumLength then
      pure (false, recordFailure p sectionStart .sectionTooShort)
    else do
      let best ← selectBestPattern p sectionStart sectionEnd usePatterns
      match best.1 with
      | none =>
          -- `patterns[best_pattern]` with `best_pattern == -1`: an
          -- out-of-bounds vector access in the source (every pattern
          -- disabled by `use_patterns`).
          .error .outOfRange
      | some (pat, off) =>
          if best.2 > ((sectionEnd : ℤ) - (sectionStart : ℤ) - 1) then
            pure (false, recordFailure p sectionStart .ambiguousMatchPattern)
          else
            guessSuccessPath p sectionStart sectionEnd pat off dropDuplicate

/-- A selection-loop accumulator that holds a chosen pattern: one of the
three candidate patterns, a pattern offset inside it, and a `mic_dev` that is
non-negative and strictly below `INT_MAX`. -/
def goodBest (b : Option (List Char × ℤ) × ℤ) : Prop :=
  ∃ pat o d, b = (some (pat, o), d) ∧
    (pat = ['c', 'c', 'c', 'n', 'n'] ∨ pat = ['c', 'c', 'n', 'n', 'n'] ∨ pat = ['c']) ∧
    0 ≤ o ∧ o < (pat.length : ℤ) ∧ 0 ≤ d ∧ d < intMax

/-- A 25-frame project with neutral mics, used to exercise the pattern
guesser on a concrete input. -/
def micProject25 : Project :=
  { freshProject 25 1000 with mics := List.replicate 25 ⟨0, 0, 0, 0, 0⟩ }

/-- A 6-frame project with mics whose second section starts at frame 5,
inside the trailing, incomplete decimation cycle. -/
def tailSectionProject6 : Project :=
  { freshProject 6 1000 with
      mics := List.replicate 6 ⟨0, 0, 0, 0, 0⟩,
      sections := [⟨0, []⟩, ⟨5, []⟩] }

/-- The JSON value's type matches the parameter's declared type exactly
(the tests `IsBool` / `IsInt` / `IsDouble` of the version-3 read path). -/
def typeMatches : JSONParameterTypes → JSONValue → Bool
  | .JSONParamBool, .jbool _ => true
  | .JSONParamInt, .jint _ => true
  | .JSONParamDouble, .jdouble _ => true
  | _, _ => false

/-- Lookup in one of the parameter maps (`std::map::at` / iteration). -/
def lookupParam {α : Type} (l : List (String × α)) (k : String) : Option α :=
  (l.find? (fun e => e.1 = k)).map (fun e => e.2)

/-- The recognized parameter `key` (of declared type `ty`, with JSON value
`v`) has been stored coerced to its declared type, as the version-2 reader
does: numbers truncate to `int`, compare against zero for `bool`, and load
exactly for `double`. -/
def storedCoerced (maps : ParamMaps) (key : String) (ty : JSONParameterTypes)
    (v : JSONValue) : Prop :=
  match ty with
  | .JSONParamInt => lookupParam maps.ints key = some (truncToInt v.getDouble)
  | .JSONParamDouble => lookupParam maps.doubles key = some v.getDouble
  | .JSONParamBool => lookupParam maps.bools key = some (decide (¬ v.getDouble = 0))

/-- The relevant parameter map has no entry for `key` yet. -/
def paramAbsent (maps : ParamMaps) (key : String) (ty : JSONParameterTypes) : Prop :=
  match ty with
  | .JSONParamInt => lookupParam maps.ints key = none
  | .JSONParamDouble => lookupParam maps.doubles key = none
  | .JSONParamBool => lookupParam maps.bools key = none

/-- The two map triples agree on `key`. -/
def lookupsAgree (m₁ m₂ : ParamMaps) (key : String) : Prop :=
  lookupParam m₁.ints key = lookupParam m₂.ints key ∧
  lookupParam m₁.doubles key = lookupParam m₂.doubles key ∧
  lookupParam m₁.bools key = lookupParam m₂.bools key

/-- The parameter is either absent from the document or a JSON number (the
condition under which the version-2 read of that parameter succeeds). -/
def numberIfPresent (json : List (String × JSONValue)) (k : String) : Bool :=
  match findMember json k with
  | none => true
  | some v => v.isNumber

/-- The frame is dropped, as a Bool-valued predicate. -/
def droppedB (p : Project) : ℕ → Bool := fun i => decide (isDropped p i)

/-- The frame survives decimation, as a Bool-valued predicate. -/
def survB (p : Project) : ℕ → Bool := fun i => decide (¬ isDropped p i)

/-- Number of surviving source frames strictly below `f` — the output index
of a surviving frame `f`. -/
def survIdx (p : Project) (f : ℕ) : ℕ := (List.range f).countP (survB p)

/-- The non-dropped offsets of one cycle, in order. -/
def survOffsets (ds : Finset ℕ) : List ℕ :=
  [0, 1, 2, 3, 4].filter (fun j => decide (¬ j ∈ ds))

/-- All padded source positions (five per cycle) that survive decimation,
in increasing order, starting at cycle `b`. -/
def survPositions : List (Finset ℕ) → ℕ → List ℕ
  | [], _ => []
  | ds :: rest, b => (survOffsets ds).map (fun j => b * 5 + j) ++ survPositions rest (b + 1)

/-- One step of `setRangeMatchesFromPattern`, as a pure transformation of the
match array (the loop body of `setRangeMatchesLoop` with `setMatch`'s write
inlined; the bounds and validity guards are discharged separately). -/
def srmfpStep (numFrames rangeEnd : ℕ) (pattern : List Char) (ms : List Char)
    (i : ℕ) : List Char :=
  let c := pattern.getD (i % 5) 'c'
  if i = 0 ∧ (c = 'p' ∨ c = 'b') then ms
  else if i = numFrames - 1 ∧ (c = 'n' ∨ c = 'u') then
    if c = 'n' then ms.set i (setMatchCoerce numFrames i 'b') else ms
  else if i = rangeEnd ∧ c = 'n' then ms.set i (setMatchCoerce numFrames i 'b')
  else ms.set i (setMatchCoerce numFrames i c)

/-- The per-frame result of `setRangeMatchesFromPattern` for a frame inside
the range: the candidate is `pattern[i mod 5]`; frame 0 keeps its old match
when the candidate is `p` or `b`; the last source frame keeps its old match
for candidate `u` and stores (through `setMatch`) `b` for candidate `n`; the
range boundary `i = rangeEnd` stores `b` for candidate `n`; otherwise the
candidate itself is stored through `setMatch`'s boundary coercion. -/
def srmfpExpected (numFrames rangeEnd : ℕ) (pattern : List Char) (i : ℕ)
    (old : Char) : Char :=
  let c := pattern.getD (i % 5) 'c'
  if i = 0 ∧ (c = 'p' ∨ c = 'b') then old
  else if i = numFrames - 1 ∧ (c = 'n' ∨ c = 'u') then
    if c = 'n' then setMatchCoerce numFrames i 'b' else old
  else if i = rangeEnd ∧ c = 'n' then setMatchCoerce numFrames i 'b'
  else setMatchCoerce numFrames i c

/-!
### Helper lemmas
-/

theorem getD_set {α : Type} (l : List α) (i j : ℕ) (v d : α) :
    (l.set i v).getD j d = if i = j ∧ i < l.length then v else l.getD j d := by
  simp only [List.getD_eq_getElem?_getD]
  by_cases h1 : i < l.length
  · by_cases h2 : i = j
    · subst h2
      rw [List.getElem?_set_eq_of_lt v h1, if_pos ⟨rfl, h1⟩]
      rfl
    · rw [List.getElem?_set_ne h2, if_neg (by tauto)]
  · rw [List.set_eq_of_length_le (by omega), if_neg (by tauto)]

theorem getD_replicate {α : Type} (n i : ℕ) (c d : α) (h : i < n) :
    (List.replicate n c).getD i d = c := by
  simp [List.getD_eq_getElem?_getD, List.getElem?_eq_getElem, h]

theorem allocMatches_length (p : Project)
    (h : p.«matches» = [] ∨ p.«matches».length = p.numFrames) :
    (allocMatches p).length = p.numFrames := by
  unfold allocMatches
  by_cases he : p.«matches».isEmpty
  · rw [if_pos he]
    simp
  · rw [if_neg he]
    rcases h with h | h
    · rw [List.isEmpty_iff] at he
      exact absurd h he
    · exact h

theorem validMatchChar_cases (ch : Char) (h : isValidMatchChar ch = true) :
    ch = 'p' ∨ ch = 'c' ∨ ch = 'n' ∨ ch = 'b' ∨ ch = 'u' := by
  simp only [isValidMatchChar, Bool.or_eq_true, decide_eq_true_eq] at h
  tauto

/-!
### C10: renaming a preset to its own name
-/

/-- C10: for every string `a` (whether or not a preset named `a` exists),
`rename_preset(a, a)` returns immediately without raising and without
modifying any project state; in particular the no-such-preset check is
bypassed. -/
theorem renamePreset_same_name_noop (p : Project) (a : String) :
    renamePreset p a a = .ok p := by
  simp [renamePreset]

/-!
### C8: adding a decimated frame
-/

/-- C8: for every frame `f` in `[0, num_frames_source)`: if cycle `f/5`
already holds four dropped offsets, `add_decimated_frame(f)` is a silent
no-op (no error, no state change); otherwise it inserts `f mod 5` into
`decimated_frames[f/5]` and decrements `num_frames_decimated` by one exactly
when the offset was not already present. -/
theorem addDecimatedFrame_spec (p : Project) (f : ℕ) (hf : f < p.numFrames) :
    ((p.decimatedFrames.getD (f / 5) ∅).card = 4 → addDecimatedFrame p f = .ok p) ∧
    ((p.decimatedFrames.getD (f / 5) ∅).card ≠ 4 →
      addDecimatedFrame p f = .ok { p with
        decimatedFrames := p.decimatedFrames.set (f / 5)
          (insert (f % 5) (p.decimatedFrames.getD (f / 5) ∅)),
        numFramesDecimated := p.numFramesDecimated -
          (if f % 5 ∈ p.decimatedFrames.getD (f / 5) ∅ then 0 else 1) }) := by
  unfold addDecimatedFrame
  rw [if_neg (not_not_intro hf)]
  constructor
  · intro h4
    rw [if_pos (by simpa using h4)]
  · intro h4
    rw [if_neg (by simpa using h4)]
    by_cases hm : f % 5 ∈ p.decimatedFrames.getD (f / 5) ∅
    · rw [if_pos hm, if_pos hm]
      simp
    · rw [if_neg hm, if_neg hm]

/-- Witness for C8 at a fresh five-frame project and frame 0: the offset is
inserted into cycle 0 and the counter drops from 5 to 4. -/
theorem addDecimatedFrame_spec_witness :
    addDecimatedFrame (freshProject 5 100) 0 = .ok { freshProject 5 100 with
      decimatedFrames := [({0} : Finset ℕ)], numFramesDecimated := 4 } := by
  have h := (addDecimatedFrame_spec (freshProject 5 100) 0 (by decide)).2 (by decide)
  rw [h]
  congr 1

/-!
### C3: boundary coercion in `setMatch`
-/

/-- C3: on a five-frame project (whose match array is either unallocated or
of full length), `set_match` behaves as claimed on the five concrete
scenarios, and any successful `set_match` preserves the boundary invariant
`matches[0] ∉ {b, p}`, `matches[4] ∉ {n, u}`. -/
theorem setMatch_boundary_spec (p : Project) (h5 : p.numFrames = 5)
    (hlen : p.«matches» = [] ∨ p.«matches».length = p.numFrames) :
    (∃ q, setMatch p 0 'b' = .ok q ∧ q.«matches».getD 0 ' ' = 'n') ∧
    (∃ q, setMatch p 0 'p' = .ok q ∧ q.«matches».getD 0 ' ' = 'u') ∧
    (∃ q, setMatch p 4 'n' = .ok q ∧ q.«matches».getD 4 ' ' = 'b') ∧
    (∃ q, setMatch p 4 'u' = .ok q ∧ q.«matches».getD 4 ' ' = 'p') ∧
    setMatch p 2 'x' = .error .invalidMatchChar ∧
    (∀ f ch q, setMatch p f ch = .ok q →
      (p.«matches» = [] ∨
        (p.«matches».getD 0 ' ' ≠ 'b' ∧ p.«matches».getD 0 ' ' ≠ 'p' ∧
         p.«matches».getD 4 ' ' ≠ 'n' ∧ p.«matches».getD 4 ' ' ≠ 'u')) →
      (q.«matches».getD 0 ' ' ≠ 'b' ∧ q.«matches».getD 0 ' ' ≠ 'p' ∧
       q.«matches».getD 4 ' ' ≠ 'n' ∧ q.«matches».getD 4 ' ' ≠ 'u')) := by
  have hal : (allocMatches p).length = 5 := by
    rw [allocMatches_length p hlen, h5]
  refine ⟨?_, ?_, ?_, ?_, ?_, ?_⟩
  · refine ⟨_, by unfold setMatch; rw [if_neg (by omega), if_neg (by decide)], ?_⟩
    rw [getD_set, if_pos ⟨rfl, by omega⟩]
    simp [setMatchCoerce]
  · refine ⟨_, by unfold setMatch; rw [if_neg (by omega), if_neg (by decide)], ?_⟩
    rw [getD_set, if_pos ⟨rfl, by omega⟩]
    simp [setMatchCoerce]
  · refine ⟨_, by unfold setMatch; rw [if_neg (by omega), if_neg (by decide)], ?_⟩
    rw [getD_set, if_pos ⟨rfl, by omega⟩]
    simp [setMatchCoerce, h5]
  · refine ⟨_, by unfold setMatch; rw [if_neg (by omega), if_neg (by decide)], ?_⟩
    rw [getD_set, if_pos ⟨rfl, by omega⟩]
    simp [setMatchCoerce, h5]
  · unfold setMatch
    rw [if_neg (by omega), if_pos (by decide)]
  · intro f ch q hok hpre
    have halloc : (allocMatches p).getD 0 ' ' ≠ 'b' ∧ (allocMatches p).getD 0 ' ' ≠ 'p' ∧
        (allocMatches p).getD 4 ' ' ≠ 'n' ∧ (allocMatches p).getD 4 ' ' ≠ 'u' := by
      unfold allocMatches
      by_cases he : p.«matches».isEmpty
      · rw [if_pos he, h5]
        rw [getD_replicate 5 0 'c' ' ' (by omega), getD_replicate 5 4 'c' ' ' (by omega)]
        refine ⟨by decide, by decide, by decide, by decide⟩
      · rw [if_neg he]
        rcases hpre with hpre | hpre
        · rw [List.isEmpty_iff] at he
          exact absurd hpre he
        · exact hpre
    unfold setMatch at hok
    by_cases h1 : f < p.numFrames
    · rw [if_neg (not_not_intro h1)] at hok
      by_cases h2 : isValidMatchChar ch = true
      · rw [if_neg (not_not_intro h2)] at hok
        have hq : q = { p with
            «matches» := (allocMatches p).set f (setMatchCoerce p.numFrames f ch) } := by
          cases hok
          rfl
        subst hq
        have hcoer0 : f = 0 → setMatchCoerce p.numFrames f ch ≠ 'b' ∧
            setMatchCoerce p.numFrames f ch ≠ 'p' := by
          intro h0
          subst h0
          rcases validMatchChar_cases ch h2 with h | h | h | h | h <;> subst h <;>
            simp [setMatchCoerce]
        have hcoer4 : f = 4 → setMatchCoerce p.numFrames f ch ≠ 'n' ∧
            setMatchCoerce p.numFrames f ch ≠ 'u' := by
          intro h0
          subst h0
          rcases validMatchChar_cases ch h2 with h | h | h | h | h <;> subst h <;>
            simp [setMatchCoerce, h5]
        refine ⟨?_, ?_, ?_, ?_⟩ <;> rw [getD_set] <;> split_ifs with hif
        · exact (hcoer0 hif.1).1
        · exact halloc.1
        · exact (hcoer0 hif.1).2
        · exact halloc.2.1
        · exact (hcoer4 hif.1).1
        · exact halloc.2.2.1
        · exact (hcoer4 hif.1).2
        · exact halloc.2.2.2
      · rw [if_pos (by simpa using h2)] at hok
        cases hok
    · rw [if_pos h1] at hok
      cases hok

/-- Witness for C3: a fresh five-frame project satisfies the hypotheses. -/
theorem setMatch_boundary_spec_witness :
    (freshProject 5 100).numFrames = 5 ∧
    ((freshProject 5 100).«matches» = [] ∨
      (freshProject 5 100).«matches».length = (freshProject 5 100).numFrames) ∧
    setMatch (freshProject 5 100) 2 'x' = .error .invalidMatchChar :=
  ⟨by decide, by decide,
    (setMatch_boundary_spec (freshProject 5 100) (by decide) (by decide)).2.2.2.2.1⟩

/-!
### C1: the decimation counter invariant and `restoreState`
-/

/-- C1 (failing input): on a fresh five-frame project, run `commit`, then
`add_decimated_frame(0)`, then `commit`, then `undo`.  `restoreState` puts the
decimation sets back (no dropped frames) but never restores the
`num_frames[PostDecimate]` counter, which stays at 4, so invariant 1
(`num_frames_decimated = num_frames_source − Σ |decimated_frames[c]|`) no
longer holds after the restoration. -/
theorem restoreState_breaks_decimation_invariant :
    ∃ p2, addDecimatedFrame (commit (freshProject 5 100) "") 0 = .ok p2 ∧
      decimationCounterInvariant p2 ∧
      (undo (commit p2 "")).decimatedFrames = [∅] ∧
      (undo (commit p2 "")).numFramesDecimated = 4 ∧
      ¬ decimationCounterInvariant (undo (commit p2 "")) := by
  refine ⟨_, rfl, by decide, by decide, by decide, by decide⟩

/-!
### C4: deleting a preset referenced twice in a row
-/

/-- C4 (failing input): project with preset `A`, section 0 presets
`["A", "A"]`, and custom list `L` with preset `A`.  After `delete_preset("A")`
the preset itself is gone (`is_preset_in_use("A")` raises `NoSuchPreset`) and
the custom list reference is cleared, but one `"A"` entry survives in section
0: the erase loop increments its index after erasing, skipping the element
that slid into the erased slot. -/
theorem deletePreset_skips_consecutive_duplicates :
    ∃ q, deletePreset { freshProject 5 100 with
        presets := [⟨"A", ""⟩],
        sections := [⟨0, ["A", "A"]⟩],
        customLists := [⟨"L", "A", 0, []⟩] } "A" = .ok q ∧
      q.presets = [] ∧
      isPresetInUse q "A" = .error .noSuchPreset ∧
      q.customLists.map CustomList.preset = [""] ∧
      q.sections.map Section.presets = [["A"]] := by
  refine ⟨_, rfl, by decide, by decide, by decide, by decide⟩

/-!
### C6: the undo/redo law
-/

theorem commit_undoSteps (x : Project) (d : String) : (commit x d).undoSteps = x.undoSteps := rfl

theorem commit_redoStack (x : Project) (d : String) : (commit x d).redoStack = [] := rfl

theorem snapshot_commit (x : Project) (d d' : String) :
    snapshot (commit x d) d' = snapshot x d' := rfl

theorem snapshot_restoreState (x : Project) (st : UndoStep) (d : String) :
    snapshot (restoreState x st) d = { st with description := d } := rfl

theorem snapshot_set_stacks (x : Project) (a b : List UndoStep) (d : String) :
    snapshot { x with undoStack := a, redoStack := b } d = snapshot x d := rfl

theorem snapshot_set_description (x : Project) (d d' : String) :
    { snapshot x d with description := d' } = snapshot x d' := rfl

theorem restoreState_undoStack (x : Project) (st : UndoStep) :
    (restoreState x st).undoStack = x.undoStack := rfl

theorem restoreState_redoStack (x : Project) (st : UndoStep) :
    (restoreState x st).redoStack = x.redoStack := rfl

theorem commit_undoStack (x : Project) (d : String) :
    (commit x d).undoStack =
      (x.undoStack ++ [snapshot x d]).drop (x.undoStack.length + 1 - x.undoSteps) := by
  simp [commit]

/-- C6 (counterexample): starting from a project that already holds one undo
entry (one prior `commit`) and has a large `undo_steps` bound, the sequence
`commit; edit; commit; undo; undo; redo` does not reproduce the observable
state of `commit; edit; commit`: the second `undo` pops a real step and
`redo` restores only one.  The edit sets `combed_frames` to `{0}`; the final
state of the left-hand side has it empty again. -/
theorem undo_redo_law_counterexample :
    snapshot (redo (undo (undo (commit
        { commit { freshProject 5 100 with
            undoStack := [snapshot (freshProject 5 100) ""] } "" with
          combedFrames := ({0} : Finset ℕ) } "")))) "" ≠
    snapshot (commit
        { commit { freshProject 5 100 with
            undoStack := [snapshot (freshProject 5 100) ""] } "" with
          combedFrames := ({0} : Finset ℕ) } "") "" := by
  decide

/-- C6 (amended): for a project whose undo stack is empty before the
sequence, and for every edit (a state change that does not touch the undo
machinery itself), `commit; edit; commit; undo; undo; redo` produces the same
observable state — the nine snapshotted parts — as `commit; edit; commit`;
and `undo()` is a no-op whenever the undo stack holds at most one entry. -/
theorem undo_redo_law (p : Project) (e : Project → Project) (d1 d2 : String)
    (hU : p.undoStack = [])
    (hE : ∀ q, (e q).undoStack = q.undoStack ∧ (e q).redoStack = q.redoStack ∧
          (e q).undoSteps = q.undoSteps) :
    snapshot (redo (undo (undo (commit (e (commit p d1)) d2)))) "" =
      snapshot (commit (e (commit p d1)) d2) "" ∧
    (∀ q : Project, q.undoStack.length ≤ 1 → undo q = q) := by
  have hnoop : ∀ q : Project, q.undoStack.length ≤ 1 → undo q = q := by
    intro q hq
    unfold undo
    rw [if_pos hq]
  have hredonoop : ∀ q : Project, q.redoStack = [] → redo q = q := by
    intro q hq
    unfold redo
    rw [hq]
    rfl
  refine ⟨?_, hnoop⟩
  obtain ⟨hEu, hEr, hEs⟩ := hE (commit p d1)
  have h1u : (e (commit p d1)).undoStack = [snapshot p d1].drop (1 - p.undoSteps) := by
    rw [hEu, commit_undoStack, hU]
    simp
  have h1s : (e (commit p d1)).undoSteps = p.undoSteps := by
    rw [hEs, commit_undoSteps]
  rcases hn : p.undoSteps with _ | _ | u
  · -- undo_steps = 0: both stacks stay empty, all three operations no-op.
    have h3u : (commit (e (commit p d1)) d2).undoStack = [] := by
      rw [commit_undoStack, h1u, h1s, hn]
      simp
    have e3 : undo (commit (e (commit p d1)) d2) = commit (e (commit p d1)) d2 :=
      hnoop _ (by rw [h3u]; simp)
    rw [e3, e3, hredonoop _ (commit_redoStack _ _)]
  · -- undo_steps = 1: the second commit evicts the first snapshot.
    have h3u : (commit (e (commit p d1)) d2).undoStack =
        [snapshot (e (commit p d1)) d2] := by
      rw [commit_undoStack, h1u, h1s, hn]
      simp
    have e3 : undo (commit (e (commit p d1)) d2) = commit (e (commit p d1)) d2 :=
      hnoop _ (by rw [h3u]; simp)
    rw [e3, e3, hredonoop _ (commit_redoStack _ _)]
  · -- undo_steps ≥ 2: the first undo restores the baseline, the second
    -- no-ops, and redo restores the edited snapshot.
    have h2u : (e (commit p d1)).undoStack = [snapshot p d1] := by
      rw [h1u, hn]
      simp
    have h3u : (commit (e (commit p d1)) d2).undoStack =
        [snapshot p d1, snapshot (e (commit p d1)) d2] := by
      rw [commit_undoStack, h2u, h1s, hn]
      simp
    have hu1 : undo (commit (e (commit p d1)) d2) = restoreState
        { commit (e (commit p d1)) d2 with
          redoStack := [snapshot (e (commit p d1)) d2],
          undoStack := [snapshot p d1] } (snapshot p d1) := by
      unfold undo
      rw [if_neg (by rw [h3u]; simp), h3u, commit_redoStack]
      simp
    have hr1 : (undo (commit (e (commit p d1)) d2)).undoStack = [snapshot p d1] := by
      rw [hu1, restoreState_undoStack]
    have hr2 : (undo (commit (e (commit p d1)) d2)).redoStack =
        [snapshot (e (commit p d1)) d2] := by
      rw [hu1, restoreState_redoStack]
    rw [hnoop _ (by rw [hr1]; simp)]
    have hredo : redo (undo (commit (e (commit p d1)) d2)) =
        { restoreState (undo (commit (e (commit p d1)) d2))
            (snapshot (e (commit p d1)) d2) with
          undoStack := (undo (commit (e (commit p d1)) d2)).undoStack ++
            [snapshot (e (commit p d1)) d2],
          redoStack := [] } := by
      unfold redo
      rw [hr2]
      rfl
    rw [hredo, snapshot_set_stacks, snapshot_restoreState, snapshot_commit,
      snapshot_set_description]

/-- Witness for C6 (amended) on a fresh project (empty undo stack) with the
edit that marks frame 0 as combed. -/
theorem undo_redo_law_witness :
    (freshProject 5 100).undoStack = [] ∧
    snapshot (redo (undo (undo (commit
        { commit (freshProject 5 100) "" with combedFrames := ({0} : Finset ℕ) } "")))) "" =
      snapshot (commit
        { commit (freshProject 5 100) "" with combedFrames := ({0} : Finset ℕ) } "") "" :=
  ⟨rfl, (undo_redo_law (freshProject 5 100)
      (fun q => { q with combedFrames := ({0} : Finset ℕ) }) "" "" rfl
      (fun _ => ⟨rfl, rfl, rfl⟩)).1⟩

/-!
### C5: `setRangeMatchesFromPattern`
-/

theorem srmfpStep_length (N re : ℕ) (pat : List Char) (ms : List Char) (i : ℕ) :
    (srmfpStep N re pat ms i).length = ms.length := by
  unfold srmfpStep
  dsimp only
  split_ifs <;> simp

theorem srmfpExpected_idem (N re : ℕ) (pat : List Char) (j : ℕ) (old : Char) :
    srmfpExpected N re pat j (srmfpExpected N re pat j old) =
      srmfpExpected N re pat j old := by
  unfold srmfpExpected
  dsimp only
  split_ifs <;> rfl

theorem srmfpStep_getD (N re : ℕ) (pat : List Char) (ms : List Char) (i j : ℕ)
    (hi : i < ms.length) :
    (srmfpStep N re pat ms i).getD j ' ' =
      if i = j then srmfpExpected N re pat i (ms.getD j ' ') else ms.getD j ' ' := by
  by_cases hij : i = j
  · subst hij
    rw [if_pos rfl]
    unfold srmfpStep srmfpExpected
    dsimp only
    split_ifs <;> first
      | rfl
      | (rw [getD_set, if_pos ⟨rfl, hi⟩])
  · rw [if_neg hij]
    unfold srmfpStep
    dsimp only
    split_ifs <;> first
      | rfl
      | (rw [getD_set, if_neg (by tauto)])

theorem srmfpFold_length (N re : ℕ) (pat : List Char) :
    ∀ (l : List ℕ) (ms : List Char),
      (l.foldl (srmfpStep N re pat) ms).length = ms.length := by
  intro l
  induction l with
  | nil => intro ms; rfl
  | cons i l' ih =>
      intro ms
      rw [List.foldl_cons, ih, srmfpStep_length]

theorem srmfpFold_getD (N re : ℕ) (pat : List Char) :
    ∀ (l : List ℕ) (ms : List Char) (j : ℕ),
      (∀ i ∈ l, i < ms.length) →
      (l.foldl (srmfpStep N re pat) ms).getD j ' ' =
        if j ∈ l then srmfpExpected N re pat j (ms.getD j ' ') else ms.getD j ' ' := by
  intro l
  induction l with
  | nil => intro ms j _; simp
  | cons i l' ih =>
      intro ms j h1
      rw [List.foldl_cons,
        ih (srmfpStep N re pat ms i) j
          (fun a ha => by rw [srmfpStep_length]; exact h1 a (List.mem_cons_of_mem i ha)),
        srmfpStep_getD N re pat ms i j (h1 i (List.mem_cons_self i l'))]
      by_cases hij : i = j
      · subst hij
        by_cases hmem : i ∈ l'
        · rw [if_pos hmem, if_pos rfl, if_pos (List.mem_cons_self i l'), srmfpExpected_idem]
        · rw [if_neg hmem, if_pos rfl, if_pos (List.mem_cons_self i l')]
      · by_cases hmem : j ∈ l'
        · rw [if_pos hmem, if_neg hij, if_pos (List.mem_cons_of_mem i hmem)]
        · rw [if_neg hmem, if_neg hij,
            if_neg (fun hc => by rcases List.mem_cons.1 hc with hc | hc
                                 · exact hij hc.symm
                                 · exact hmem hc)]

theorem setRangeMatchesLoop_eq_fold (pat : List Char) (re : ℕ) :
    ∀ (l : List ℕ) (p : Project),
      (∀ i ∈ l, i < p.numFrames) →
      p.«matches».length = p.numFrames →
      (∀ i ∈ l, isValidMatchChar (pat.getD (i % 5) 'c') = true) →
      setRangeMatchesLoop pat re p l =
        .ok { p with «matches» := l.foldl (srmfpStep p.numFrames re pat) p.«matches» } := by
  intro l
  induction l with
  | nil => intro p _ _ _; rfl
  | cons i l' ih =>
      intro p h1 h2 h3
      have hiN : i < p.numFrames := h1 i (List.mem_cons_self i l')
      have hne : ¬ p.«matches».isEmpty = true := by
        rw [List.isEmpty_iff]
        intro hc
        rw [hc] at h2
        simp at h2
        omega
      have halloc : allocMatches p = p.«matches» := by
        unfold allocMatches
        rw [if_neg hne]
      have hsm : ∀ ch, isValidMatchChar ch = true → setMatch p i ch =
          .ok { p with «matches» :=
            p.«matches».set i (setMatchCoerce p.numFrames i ch) } := by
        intro ch hch
        unfold setMatch
        rw [if_neg (not_not_intro hiN), if_neg (not_not_intro hch), halloc]
      have hstep : ∀ ms : List Char,
          ({ p with «matches» := ms } : Project).numFrames = p.numFrames := fun _ => rfl
      have ihset : ∀ v : Char, setRangeMatchesLoop pat re
            { p with «matches» := p.«matches».set i v } l' =
          .ok { p with «matches» :=
            (l'.foldl (srmfpStep p.numFrames re pat) (p.«matches».set i v)) } := by
        intro v
        have := ih { p with «matches» := p.«matches».set i v }
          (fun a ha => h1 a (List.mem_cons_of_mem i ha))
          (by simp [h2])
          (fun a ha => h3 a (List.mem_cons_of_mem i ha))
        exact this
      have ihskip : setRangeMatchesLoop pat re p l' =
          .ok { p with «matches» := (l'.foldl (srmfpStep p.numFrames re pat) p.«matches») } :=
        ih p (fun a ha => h1 a (List.mem_cons_of_mem i ha)) h2
          (fun a ha => h3 a (List.mem_cons_of_mem i ha))
      show (if i = 0 ∧ (pat.getD (i % 5) 'c' = 'p' ∨ pat.getD (i % 5) 'c' = 'b') then
          setRangeMatchesLoop pat re p l'
        else if i = p.numFrames - 1 ∧
            (pat.getD (i % 5) 'c' = 'n' ∨ pat.getD (i % 5) 'c' = 'u') then
          if pat.getD (i % 5) 'c' = 'n' then
            setMatch p i 'b' >>= fun q => setRangeMatchesLoop pat re q l'
          else setRangeMatchesLoop pat re p l'
        else if i = re ∧ pat.getD (i % 5) 'c' = 'n' then
          setMatch p i 'b' >>= fun q => setRangeMatchesLoop pat re q l'
        else setMatch p i (pat.getD (i % 5) 'c') >>= fun q =>
          setRangeMatchesLoop pat re q l') = _
      rw [List.foldl_cons]
      split_ifs with hA hB hC hD
      · have hs : srmfpStep p.numFrames re pat p.«matches» i = p.«matches» := by
          unfold srmfpStep
          dsimp only
          rw [if_pos hA]
        rw [hs]
        exact ihskip
      · have hs : srmfpStep p.numFrames re pat p.«matches» i =
            p.«matches».set i (setMatchCoerce p.numFrames i 'b') := by
          unfold srmfpStep
          dsimp only
          rw [if_neg hA, if_pos hB, if_pos hC]
        rw [hsm 'b' (by decide), hs]
        show setRangeMatchesLoop pat re _ l' = _
        exact ihset (setMatchCoerce p.numFrames i 'b')
      · have hs : srmfpStep p.numFrames re pat p.«matches» i = p.«matches» := by
          unfold srmfpStep
          dsimp only
          rw [if_neg hA, if_pos hB, if_neg hC]
        rw [hs]
        exact ihskip
      · have hs : srmfpStep p.numFrames re pat p.«matches» i =
            p.«matches».set i (setMatchCoerce p.numFrames i 'b') := by
          unfold srmfpStep
          dsimp only
          rw [if_neg hA, if_neg hB, if_pos hD]
        rw [hsm 'b' (by decide), hs]
        show setRangeMatchesLoop pat re _ l' = _
        exact ihset (setMatchCoerce p.numFrames i 'b')
      · have hs : srmfpStep p.numFrames re pat p.«matches» i =
            p.«matches».set i (setMatchCoerce p.numFrames i (pat.getD (i % 5) 'c')) := by
          unfold srmfpStep
          dsimp only
          rw [if_neg hA, if_neg hB, if_neg hD]
        rw [hsm (pat.getD (i % 5) 'c') (h3 i (List.mem_cons_self i l')), hs]
        show setRangeMatchesLoop pat re _ l' = _
        exact ihset (setMatchCoerce p.numFrames i (pat.getD (i % 5) 'c'))

/-- C5 (counterexample): ten-frame project, range `[0, 6]`, pattern
`"ccccnn"` of length 6.  At `i = 5` none of the claim's exceptions applies
(`5 ≠ 0`, `5 ≠ 9 = N − 1`, `5 ≠ 6 = end`), so the claim predicts the
candidate `pattern[5 mod 6] = 'n'`; the code stores `pattern[5 mod 5] = 'c'`. -/
theorem setRangeMatchesFromPattern_counterexample :
    ∃ q, setRangeMatchesFromPattern (freshProject 10 100) 0 6 "ccccnn".toList = .ok q ∧
      "ccccnn".toList.getD (5 % "ccccnn".toList.length) ' ' = 'n' ∧
      q.«matches».getD 5 ' ' = 'c' ∧
      q.«matches».getD 5 ' ' ≠ "ccccnn".toList.getD (5 % "ccccnn".toList.length) ' ' := by
  refine ⟨_, rfl, by decide, by decide, by decide⟩

/-- C5 (amended): for a valid range and a pattern of length at least 5 made
of valid match characters, `set_range_matches_from_pattern` assigns each
frame of the range the candidate `pattern[i mod 5]` (not
`pattern[i mod pattern.len]`), with the claim's skips and coercions, all
writes going through `setMatch`'s boundary coercion; frames outside the
range keep their match.  Stated for a project whose match array is
allocated (`setMatch` allocates it, all `'c'`, on first write). -/
theorem setRangeMatchesFromPattern_spec (p : Project) (rs re : ℕ)
    (pattern : List Char)
    (hord : rs ≤ re) (hre : re < p.numFrames) (hlen : 5 ≤ pattern.length)
    (hvalid : ∀ c ∈ pattern, isValidMatchChar c = true)
    (hm : p.«matches».length = p.numFrames) :
    ∃ ms, setRangeMatchesFromPattern p rs re pattern = .ok { p with «matches» := ms } ∧
      ms.length = p.numFrames ∧
      ∀ i, i < p.numFrames →
        ms.getD i ' ' =
          if rs ≤ i ∧ i ≤ re then
            srmfpExpected p.numFrames re pattern i (p.«matches».getD i ' ')
          else p.«matches».getD i ' ' := by
  have hvc : ∀ i : ℕ, isValidMatchChar (pattern.getD (i % 5) 'c') = true := by
    intro i
    have hlt : i % 5 < pattern.length := lt_of_lt_of_le (Nat.mod_lt i (by omega)) hlen
    apply hvalid
    rw [List.getD_eq_getElem?_getD, List.getElem?_eq_getElem hlt]
    exact List.getElem_mem hlt
  have hmem : ∀ a ∈ List.range' rs (re - rs + 1), a < p.numFrames := by
    intro a ha
    rw [List.mem_range'_1] at ha
    omega
  refine ⟨(List.range' rs (re - rs + 1)).foldl (srmfpStep p.numFrames re pattern)
    p.«matches», ?_, ?_, ?_⟩
  · simp only [setRangeMatchesFromPattern]
    rw [min_eq_left hord, max_eq_right hord, if_neg (not_not_intro hre)]
    exact setRangeMatchesLoop_eq_fold pattern re (List.range' rs (re - rs + 1)) p hmem hm
      (fun a _ => hvc a)
  · rw [srmfpFold_length, hm]
  · intro i hiN
    rw [srmfpFold_getD p.numFrames re pattern (List.range' rs (re - rs + 1)) p.«matches» i
      (fun a ha => by rw [hm]; exact hmem a ha)]
    have hiff : i ∈ List.range' rs (re - rs + 1) ↔ rs ≤ i ∧ i ≤ re := by
      rw [List.mem_range'_1]
      omega
    by_cases hin : rs ≤ i ∧ i ≤ re
    · rw [if_pos (hiff.2 hin), if_pos hin]
    · rw [if_neg (fun hc => hin (hiff.1 hc)), if_neg hin]

/-- Witness for C5 (amended): ten-frame project with an allocated match
array, range `[0, 6]`, pattern `"ccnnc"`. -/
theorem setRangeMatchesFromPattern_spec_witness :
    ∃ ms, setRangeMatchesFromPattern
        { freshProject 10 100 with «matches» := List.replicate 10 'c' } 0 6
        "ccnnc".toList =
      .ok { freshProject 10 100 with «matches» := ms } ∧ ms.length = 10 := by
  obtain ⟨ms, h1, h2, h3⟩ := setRangeMatchesFromPattern_spec
    { freshProject 10 100 with «matches» := List.replicate 10 'c' } 0 6 "ccnnc".toList
    (by decide) (by decide) (by decide) (by decide) (by decide)
  exact ⟨ms, h1, h2⟩

/-!
### C2: pre/post decimation index translation
-/

theorem isDropped_shift (p : Project) (c j : ℕ) (hj : j < 5) :
    isDropped p (c * 5 + j) ↔ j ∈ p.decimatedFrames.getD c ∅ := by
  unfold isDropped
  have h1 : (c * 5 + j) / 5 = c := by omega
  have h2 : (c * 5 + j) % 5 = j := by omega
  rw [h1, h2]

theorem card_eq_countP_range (ds : Finset ℕ) (h : ∀ o ∈ ds, o < 5) :
    (List.range 5).countP (fun j => decide (j ∈ ds)) = ds.card := by
  have hds : ds = Finset.filter (fun j => j ∈ ds) (Finset.range 5) := by
    ext x
    simp only [Finset.mem_filter, Finset.mem_range]
    exact ⟨fun hx => ⟨h x hx, hx⟩, fun hx => hx.2⟩
  conv_rhs => rw [hds]
  rw [Finset.card_filter]
  rw [show List.range 5 = [0, 1, 2, 3, 4] from rfl]
  rw [Finset.sum_range_succ, Finset.sum_range_succ, Finset.sum_range_succ,
    Finset.sum_range_succ, Finset.sum_range_succ, Finset.sum_range_zero]
  simp only [List.countP_cons, List.countP_nil]
  by_cases h0 : (0 : ℕ) ∈ ds <;> by_cases h1 : (1 : ℕ) ∈ ds <;>
    by_cases h2 : (2 : ℕ) ∈ ds <;> by_cases h3 : (3 : ℕ) ∈ ds <;>
    by_cases h4 : (4 : ℕ) ∈ ds <;> simp [h0, h1, h2, h3, h4]

theorem droppedSum_eq_countP (p : Project)
    (hoff : ∀ c < p.decimatedFrames.length, ∀ o ∈ p.decimatedFrames.getD c ∅, o < 5) :
    ∀ c, c ≤ p.decimatedFrames.length →
      ((List.range c).map (fun i => (p.decimatedFrames.getD i ∅).card)).sum =
        (List.range (c * 5)).countP (droppedB p) := by
  intro c
  induction c with
  | zero => simp
  | succ c ih =>
      intro hc
      rw [List.range_succ, List.map_append, List.sum_append,
        show (c + 1) * 5 = c * 5 + 5 from by ring, List.range_add, List.countP_append,
        ih (by omega)]
      congr 1
      simp only [List.map_cons, List.map_nil, List.sum_cons, List.sum_nil, Nat.add_zero]
      rw [List.countP_map,
        ← card_eq_countP_range (p.decimatedFrames.getD c ∅) (hoff c (by omega))]
      apply List.countP_congr
      intro j hj
      rw [List.mem_range] at hj
      simp only [Function.comp_apply, droppedB, decide_eq_true_eq]
      exact (isDropped_shift p c j hj).symm

theorem totalDropped_list_eq (l : List (Finset ℕ)) :
    (l.map Finset.card).sum =
      ((List.range l.length).map (fun i => (l.getD i ∅).card)).sum := by
  induction l with
  | nil => rfl
  | cons ds rest ih =>
      rw [List.map_cons, List.sum_cons, List.length_cons, List.range_succ_eq_map,
        List.map_cons, List.sum_cons, List.map_map, ih]
      rfl

theorem totalDropped_eq_countP (p : Project) (hWF : WFDecimation p) :
    totalDropped p = (List.range p.numFrames).countP (droppedB p) := by
  obtain ⟨hN, hlen, hoffs, hcnt⟩ := hWF
  have hoff : ∀ c < p.decimatedFrames.length, ∀ o ∈ p.decimatedFrames.getD c ∅, o < 5 :=
    fun c hc o ho => (hoffs c (List.mem_range.2 hc) o ho).1
  have hNle : p.numFrames ≤ p.decimatedFrames.length * 5 := by omega
  have h1 : totalDropped p =
      (List.range (p.decimatedFrames.length * 5)).countP (droppedB p) := by
    unfold totalDropped
    rw [totalDropped_list_eq, droppedSum_eq_countP p hoff _ (le_refl _)]
  rw [h1, show p.decimatedFrames.length * 5 =
    p.numFrames + (p.decimatedFrames.length * 5 - p.numFrames) from by omega,
    List.range_add, List.countP_append]
  have h2 : ((List.range (p.decimatedFrames.length * 5 - p.numFrames)).map
      (p.numFrames + ·)).countP (droppedB p) = 0 := by
    rw [List.countP_eq_zero]
    intro a ha
    rw [List.mem_map] at ha
    obtain ⟨t, ht, rfl⟩ := ha
    rw [List.mem_range] at ht
    simp only [droppedB, decide_eq_true_eq]
    intro hdrop
    unfold isDropped at hdrop
    have hc : (p.numFrames + t) / 5 < p.decimatedFrames.length := by omega
    have := (hoffs _ (List.mem_range.2 hc) _ hdrop).2
    omega
  omega

theorem countP_not_dropped (p : Project) (l : List ℕ) :
    l.countP (fun a => decide (¬ droppedB p a = true)) = l.countP (survB p) := by
  apply List.countP_congr
  intro a _
  simp [droppedB, survB]

theorem frameNumberAfterDecimation_eq (p : Project) (hWF : WFDecimation p)
    (f : ℕ) (hf : f < p.numFrames) :
    frameNumberAfterDecimation p (f : ℤ) = (survIdx p f : ℤ) -
      (if f = p.numFrames - 1 ∧ isDropped p f then 1 else 0) := by
  obtain ⟨hN, hlen, hoffs, hcnt⟩ := hWF
  have hoff : ∀ c < p.decimatedFrames.length, ∀ o ∈ p.decimatedFrames.getD c ∅, o < 5 :=
    fun c hc o ho => (hoffs c (List.mem_range.2 hc) o ho).1
  have hcyc : f / 5 < p.decimatedFrames.length := by omega
  unfold frameNumberAfterDecimation
  rw [if_neg (by exact_mod_cast Int.not_lt.2 (Int.natCast_nonneg f)),
    if_neg (by exact_mod_cast Nat.not_le.2 hf)]
  dsimp only
  rw [Int.toNat_natCast]
  -- the base value equals the survivor index
  have hband : ((List.range (f % 5)).map (f / 5 * 5 + ·)).countP (survB p) =
      ((List.range (f % 5)).filter
        (fun i => decide (¬ i ∈ p.decimatedFrames.getD (f / 5) ∅))).length := by
    rw [List.countP_map, ← List.countP_eq_length_filter]
    apply List.countP_congr
    intro j hj
    rw [List.mem_range] at hj
    simp only [Function.comp_apply, survB, decide_eq_true_eq]
    exact not_congr (isDropped_shift p (f / 5) j (by omega))
  have hsplit : survIdx p f =
      (List.range (f / 5 * 5)).countP (survB p) +
      ((List.range (f % 5)).map (f / 5 * 5 + ·)).countP (survB p) := by
    unfold survIdx
    conv_lhs => rw [show f = f / 5 * 5 + f % 5 from by omega]
    rw [List.range_add, List.countP_append]
  have hcompl : f / 5 * 5 =
      (List.range (f / 5 * 5)).countP (droppedB p) +
      (List.range (f / 5 * 5)).countP (survB p) := by
    have h := List.length_eq_countP_add_countP (droppedB p) (List.range (f / 5 * 5))
    rw [List.length_range, countP_not_dropped] at h
    exact h
  have hsum := droppedSum_eq_countP p hoff (f / 5) (by omega)
  have hkey : survIdx p f +
      ((List.range (f / 5)).map (fun i => (p.decimatedFrames.getD i ∅).card)).sum =
      f / 5 * 5 + ((List.range (f % 5)).filter
        (fun i => decide (¬ i ∈ p.decimatedFrames.getD (f / 5) ∅))).length := by
    rw [hsum, hsplit, hband]
    omega
  have hcast : ((List.range (f / 5)).map
      (fun i => ((p.decimatedFrames.getD i ∅).card : ℤ))).sum =
      (((List.range (f / 5)).map (fun i => (p.decimatedFrames.getD i ∅).card)).sum : ℤ) := by
    rw [show (List.range (f / 5)).map (fun i => ((p.decimatedFrames.getD i ∅).card : ℤ)) =
      ((List.range (f / 5)).map (fun i => (p.decimatedFrames.getD i ∅).card)).map
        (fun n : ℕ => (n : ℤ)) from by rw [List.map_map]; rfl]
    exact (Nat.cast_list_sum _).symm
  unfold isDropped
  rw [hcast]
  split_ifs with hcond
  · omega
  · omega

theorem beforeScanOffsets_eq (ds : Finset ℕ) :
    ∀ (js : List ℕ) (k : ℤ), 0 ≤ k →
      beforeScanOffsets ds js k =
        match (js.filter (fun j => decide (¬ j ∈ ds)))[k.toNat]? with
        | some j => .inl j
        | none => .inr (k - (js.filter (fun j => decide (¬ j ∈ ds))).length) := by
  intro js
  induction js with
  | nil =>
      intro k hk
      simp [beforeScanOffsets]
  | cons j js' ih =>
      intro k hk
      unfold beforeScanOffsets
      dsimp only
      by_cases hmem : j ∈ ds
      · simp only [if_pos hmem]
        rw [if_neg (show ¬ k = -1 from by omega)]
        have hf : (j :: js').filter (fun j => decide (¬ j ∈ ds)) =
            js'.filter (fun j => decide (¬ j ∈ ds)) := by
          rw [List.filter_cons, if_neg (by simp [hmem])]
        rw [hf]
        exact ih k hk
      · simp only [if_neg hmem]
        have hf : (j :: js').filter (fun j => decide (¬ j ∈ ds)) =
            j :: js'.filter (fun j => decide (¬ j ∈ ds)) := by
          rw [List.filter_cons, if_pos (by simp [hmem])]
        rw [hf]
        by_cases hk0 : k = 0
        · subst hk0
          rw [if_pos (show (0 : ℤ) - 1 = -1 from by norm_num)]
          simp
        · rw [if_neg (show ¬ k - 1 = -1 from by omega)]
          rw [ih (k - 1) (by omega)]
          have ht : k.toNat = (k - 1).toNat + 1 := by omega
          rw [ht, List.getElem?_cons_succ]
          rcases hE : (js'.filter (fun j => decide (¬ j ∈ ds)))[(k - 1).toNat]? with _ | j₀
          · dsimp only
            rw [List.length_cons]
            congr 1
            push_cast
            ring
          · rfl

theorem beforeScanCycles_eq :
    ∀ (dfs : List (Finset ℕ)) (b : ℕ) (k : ℤ), 0 ≤ k →
      beforeScanCycles dfs b k =
        match (survPositions dfs b)[k.toNat]? with
        | some pos => some ((pos : ℕ) : ℤ)
        | none => none := by
  intro dfs
  induction dfs with
  | nil =>
      intro b k hk
      rfl
  | cons ds rest ih =>
      intro b k hk
      unfold beforeScanCycles
      rw [beforeScanOffsets_eq ds [0, 1, 2, 3, 4] k hk]
      rw [show List.filter (fun j => decide (¬ j ∈ ds)) [0, 1, 2, 3, 4] = survOffsets ds from rfl]
      rcases hE : (survOffsets ds)[k.toNat]? with _ | j
      · dsimp only
        have hlen : (survOffsets ds).length ≤ k.toNat := List.getElem?_eq_none_iff.1 hE
        rw [ih (b + 1) (k - (survOffsets ds).length) (by omega)]
        have hup : (survPositions rest (b + 1))[(k - ((survOffsets ds).length : ℤ)).toNat]? =
            (survPositions (ds :: rest) b)[k.toNat]? := by
          show _ = ((survOffsets ds).map (fun j => b * 5 + j) ++ survPositions rest (b + 1))[k.toNat]?
          rw [List.getElem?_append, if_neg (by rw [List.length_map]; omega), List.length_map]
          congr 1
          omega
        rw [hup]
      · dsimp only
        obtain ⟨hlt, hval⟩ := List.getElem?_eq_some_iff.1 hE
        have hup : (survPositions (ds :: rest) b)[k.toNat]? = some (b * 5 + j) := by
          show ((survOffsets ds).map (fun j => b * 5 + j) ++ survPositions rest (b + 1))[k.toNat]? = _
          rw [List.getElem?_append, if_pos (by rw [List.length_map]; exact hlt),
            List.getElem?_map, hE]
          rfl
        rw [hup]
        show some ((b : ℤ) * 5 + (j : ℤ)) = some (((b * 5 + j : ℕ) : ℤ))
        congr 1

theorem survPositions_head (p : Project) (ds : Finset ℕ) (b : ℕ)
    (hds : p.decimatedFrames.getD b ∅ = ds) :
    (List.range' (b * 5) 5).filter (survB p) = (survOffsets ds).map (fun j => b * 5 + j) := by
  have h5 : List.range' (b * 5) 5 = [0, 1, 2, 3, 4].map (fun j => b * 5 + j) := rfl
  rw [h5, List.filter_map]
  apply congrArg (List.map (fun j => b * 5 + j))
  apply List.filter_congr
  intro j hj
  have hj5 : j < 5 := by
    simp only [List.mem_cons, List.not_mem_nil, or_false] at hj
    omega
  simp only [Function.comp_apply, survB]
  rw [decide_eq_decide]
  rw [isDropped_shift p b j hj5, hds]

theorem survPositions_eq_filter (p : Project) :
    ∀ (dfs : List (Finset ℕ)) (b : ℕ),
      (∀ i, i < dfs.length → dfs.getD i ∅ = p.decimatedFrames.getD (b + i) ∅) →
      survPositions dfs b = (List.range' (b * 5) (dfs.length * 5)).filter (survB p) := by
  intro dfs
  induction dfs with
  | nil =>
      intro b _
      rfl
  | cons ds rest ih =>
      intro b hgd
      show (survOffsets ds).map (fun j => b * 5 + j) ++ survPositions rest (b + 1) = _
      have hsplit : List.range' (b * 5) ((ds :: rest).length * 5) =
          List.range' (b * 5) 5 ++ List.range' (b * 5 + 5) (rest.length * 5) := by
        have := List.range'_append (b * 5) 5 (rest.length * 5) 1
        simp only [one_mul] at this
        rw [show (ds :: rest).length * 5 = rest.length * 5 + 5 from by
          rw [List.length_cons]; ring, ← this]
      rw [hsplit, List.filter_append]
      have hhead := survPositions_head p ds b (by
        have := hgd 0 (by simp)
        simpa using this.symm)
      rw [hhead]
      congr 1
      rw [ih (b + 1) (fun i hi => by
        have := hgd (i + 1) (by simp; omega)
        rw [show b + (i + 1) = b + 1 + i from by ring] at this
        simpa using this)]
      rw [show b * 5 + 5 = (b + 1) * 5 from by ring]

theorem filter_range_get (q : ℕ → Bool) :
    ∀ (M f : ℕ), f < M → q f = true →
      ((List.range M).filter q)[(List.range f).countP q]? = some f := by
  intro M
  induction M with
  | zero =>
      intro f hf
      omega
  | succ M ih =>
      intro f hf hq
      rw [List.range_succ, List.filter_append]
      by_cases hfM : f = M
      · subst hfM
        rw [List.countP_eq_length_filter, List.getElem?_append_right (le_refl _),
          Nat.sub_self]
        simp [hq]
      · have hflt : f < M := by omega
        have hlt : (List.range f).countP q < ((List.range M).filter q).length := by
          rw [← List.countP_eq_length_filter]
          have hsp : List.range M = List.range (f + 1) ++
              (List.range (M - (f + 1))).map ((f + 1) + ·) := by
            rw [← List.range_add]
            congr 1
            omega
          rw [hsp, List.countP_append, List.range_succ, List.countP_append]
          have h1 : List.countP q [f] = 1 := by simp [hq]
          omega
        rw [List.getElem?_append, if_pos hlt]
        exact ih f hflt hq

/-- C2: in a well-formed decimation state, (1) for every non-decimated frame
`f` in `[0, num_frames_source)`,
`frame_number_before_decimation(frame_number_after_decimation(f)) = f`, and
(2) for every decimated frame `f` whose successor `f+1` is an existing,
non-decimated frame, `frame_number_after_decimation(f) =
frame_number_after_decimation(f+1)`. -/
theorem frameNumber_translation_spec (p : Project) (hWF : WFDecimation p) :
    (∀ f : ℕ, f < p.numFrames → ¬ isDropped p f →
      frameNumberBeforeDecimation p (frameNumberAfterDecimation p (f : ℤ)) = some (f : ℤ)) ∧
    (∀ f : ℕ, f + 1 < p.numFrames → isDropped p f → ¬ isDropped p (f + 1) →
      frameNumberAfterDecimation p (f : ℤ) = frameNumberAfterDecimation p ((f : ℤ) + 1)) := by
  obtain ⟨hN, hlen, hoffs, hcnt⟩ := hWF
  have hWF' : WFDecimation p := ⟨hN, hlen, hoffs, hcnt⟩
  have hNsurvivors : p.numFrames =
      (List.range p.numFrames).countP (droppedB p) +
      (List.range p.numFrames).countP (survB p) := by
    have h := List.length_eq_countP_add_countP (droppedB p) (List.range p.numFrames)
    rw [List.length_range, countP_not_dropped] at h
    exact h
  constructor
  · intro f hf hnd
    have e1 := frameNumberAfterDecimation_eq p hWF' f hf
    rw [if_neg (fun hc => hnd hc.2), sub_zero] at e1
    rw [e1]
    unfold frameNumberBeforeDecimation
    dsimp only
    have hq : survB p f = true := by simp [survB, hnd]
    have hcount : survIdx p f < (List.range p.numFrames).countP (survB p) := by
      unfold survIdx
      have hsp : List.range p.numFrames = List.range (f + 1) ++
          (List.range (p.numFrames - (f + 1))).map ((f + 1) + ·) := by
        rw [← List.range_add]
        congr 1
        omega
      rw [hsp, List.countP_append, List.range_succ, List.countP_append]
      have h1 : List.countP (survB p) [f] = 1 := by simp [hq]
      omega
    have hclamp : ¬ p.numFramesDecimated ≤ ((survIdx p f : ℕ) : ℤ) := by
      rw [hcnt, totalDropped_eq_countP p hWF']
      omega
    have hx : (if ((survIdx p f : ℕ) : ℤ) < 0 then (0 : ℤ) else ((survIdx p f : ℕ) : ℤ)) =
        ((survIdx p f : ℕ) : ℤ) := by
      rw [if_neg (by omega)]
    rw [hx, if_neg hclamp]
    rw [beforeScanCycles_eq p.decimatedFrames 0 _ (by omega)]
    rw [survPositions_eq_filter p p.decimatedFrames 0 (fun i hi => by rw [Nat.zero_add])]
    rw [show List.range' (0 * 5) (p.decimatedFrames.length * 5) =
      List.range (p.decimatedFrames.length * 5) from by
        rw [List.range_eq_range']]
    have hfM : f < p.decimatedFrames.length * 5 := by omega
    rw [Int.toNat_natCast]
    rw [show survIdx p f = (List.range f).countP (survB p) from rfl]
    rw [filter_range_get (survB p) _ f hfM hq]
  · intro f h1 h2 h3
    have e1 := frameNumberAfterDecimation_eq p hWF' f (by omega)
    have e2 := frameNumberAfterDecimation_eq p hWF' (f + 1) h1
    have hidx : survIdx p (f + 1) = survIdx p f := by
      unfold survIdx
      rw [List.range_succ, List.countP_append]
      have h0 : List.countP (survB p) [f] = 0 := by simp [survB, h2]
      omega
    rw [if_neg (fun hc => by omega)] at e1
    rw [if_neg (fun hc => h3 hc.2)] at e2
    rw [e1, show (f : ℤ) + 1 = ((f + 1 : ℕ) : ℤ) from by push_cast; ring, e2, hidx]

/-- Witness for C2 on the spec's S1 scenario: ten frames, frames 1 and 6
decimated.  Frame 2 survives and round-trips; frame 1 is decimated with a
surviving successor. -/
theorem frameNumber_translation_spec_witness :
    WFDecimation { freshProject 10 100 with
      decimatedFrames := [{1}, {1}], numFramesDecimated := 8 } ∧
    frameNumberBeforeDecimation
      { freshProject 10 100 with decimatedFrames := [{1}, {1}], numFramesDecimated := 8 }
      (frameNumberAfterDecimation
        { freshProject 10 100 with decimatedFrames := [{1}, {1}], numFramesDecimated := 8 }
        ((2 : ℕ) : ℤ)) = some ((2 : ℕ) : ℤ) ∧
    frameNumberAfterDecimation
      { freshProject 10 100 with decimatedFrames := [{1}, {1}], numFramesDecimated := 8 }
      ((1 : ℕ) : ℤ) =
    frameNumberAfterDecimation
      { freshProject 10 100 with decimatedFrames := [{1}, {1}], numFramesDecimated := 8 }
      (((1 : ℕ) : ℤ) + 1) :=
  ⟨by decide,
   (frameNumber_translation_spec _ (by decide)).1 2 (by decide) (by decide),
   (frameNumber_translation_spec _ (by decide)).2 1 (by decide) (by decide) (by decide)⟩

/-!
### C7: versioned reading of the vfm/vdecimate parameter blocks
-/

theorem lookupParam_mapInsert_absent {α : Type} (l : List (String × α)) (k : String) (v : α)
    (h : lookupParam l k = none) : lookupParam (mapInsert l k v) k = some v := by
  have hfind : l.find? (fun e => e.1 = k) = none := by
    unfold lookupParam at h
    cases hf : l.find? (fun e => e.1 = k) with
    | none => rfl
    | some w => rw [hf] at h; cases h
  have hany : ¬ l.any (fun e => decide (e.1 = k)) = true := by
    intro hc
    obtain ⟨e, he, hek⟩ := List.any_eq_true.1 hc
    exact absurd (List.find?_eq_none.1 hfind e he) (by simpa using hek)
  unfold mapInsert lookupParam
  rw [if_neg hany, List.find?_append, hfind]
  simp

theorem lookupParam_mapInsert_ne {α : Type} (l : List (String × α)) (k k' : String) (v : α)
    (h : ¬ k' = k) : lookupParam (mapInsert l k v) k' = lookupParam l k' := by
  unfold mapInsert
  by_cases hany : l.any (fun e => decide (e.1 = k)) = true
  · rw [if_pos hany]
  · rw [if_neg hany]
    unfold lookupParam
    rw [List.find?_append]
    have hd : decide (k = k') = false := by
      simp only [decide_eq_false_iff_not]
      exact fun hc => h hc.symm
    have hsing : [(k, v)].find? (fun e => e.1 = k') = none := by
      simp [List.find?, hd]
    rw [hsing]
    cases l.find? (fun e => e.1 = k') <;> rfl

theorem readOneParameter_error_parseError (ver : ℤ) (maps : ParamMaps) (k : String)
    (ty : JSONParameterTypes) (v : JSONValue) (err : WobblyError)
    (h : readOneParameter ver maps k ty v = .error err) : err = .parseError := by
  unfold readOneParameter at h
  by_cases hver : ver = 2
  · rw [if_pos hver] at h
    by_cases hnum : v.isNumber = true
    · rw [if_neg (not_not_intro hnum)] at h
      rcases ty <;> cases h
    · rw [if_pos (by simpa using hnum)] at h
      cases h
      rfl
  · rw [if_neg hver] at h
    rcases ty <;> rcases v <;> first | (cases h; rfl) | cases h

theorem readOneParameter_v3_mismatch (maps : ParamMaps) (k : String)
    (ty : JSONParameterTypes) (v : JSONValue) (h : typeMatches ty v = false) :
    readOneParameter 3 maps k ty v = .error .parseError := by
  unfold readOneParameter
  rw [if_neg (by norm_num)]
  rcases ty <;> rcases v <;> first | rfl | (exact absurd h (by simp [typeMatches]))

theorem readParametersV2_go (json : List (String × JSONValue)) :
    ∀ (table : List (String × JSONParameterTypes)) (acc : ParamMaps),
      (table.map Prod.fst).Nodup →
      (∀ e ∈ table, numberIfPresent json e.1 = true) →
      (∀ e ∈ table, paramAbsent acc e.1 e.2) →
      ∃ maps,
        table.foldlM (paramStep 2 json) acc = .ok maps ∧
        (∀ e ∈ table, ∀ v, findMember json e.1 = some v → storedCoerced maps e.1 e.2 v) ∧
        (∀ k, ¬ k ∈ table.map Prod.fst → lookupsAgree maps acc k) := by
  intro table
  induction table with
  | nil =>
      intro acc _ _ _
      exact ⟨acc, rfl, by simp, fun k _ => ⟨rfl, rfl, rfl⟩⟩
  | cons e rest ih =>
      intro acc hnd hnum habs
      obtain ⟨k, ty⟩ := e
      rw [List.map_cons, List.nodup_cons] at hnd
      obtain ⟨hknotin, hndrest⟩ := hnd
      rw [List.foldlM_cons]
      cases hfm : findMember json k with
      | none =>
          obtain ⟨maps, hfold, hstored, hframe⟩ := ih acc hndrest
            (fun e' he' => hnum e' (List.mem_cons_of_mem _ he'))
            (fun e' he' => habs e' (List.mem_cons_of_mem _ he'))
          refine ⟨maps, ?_, ?_, ?_⟩
          · have hstep : paramStep 2 json acc (k, ty) = Except.ok acc := by
              unfold paramStep
              rw [hfm]
            rw [hstep]
            exact hfold
          · intro e' he' v hv
            rcases List.mem_cons.1 he' with he' | he'
            · rw [he'] at hv ⊢
              rw [hfm] at hv
              cases hv
            · exact hstored e' he' v hv
          · intro k' hk'
            exact hframe k' (fun hc => hk' (by rw [List.map_cons]; exact List.mem_cons_of_mem _ hc))
      | some v =>
          have hnumv : v.isNumber = true := by
            have hh := hnum (k, ty) (List.mem_cons_self _ _)
            unfold numberIfPresent at hh
            rw [hfm] at hh
            exact hh
          have habshead := habs (k, ty) (List.mem_cons_self _ _)
          have hro : ∃ acc', readOneParameter 2 acc k ty v = .ok acc' ∧
              storedCoerced acc' k ty v ∧
              (∀ e' ∈ rest, paramAbsent acc' e'.1 e'.2) ∧
              (∀ k', ¬ k' = k → lookupsAgree acc' acc k') := by
            have hne : ∀ e' ∈ rest, ¬ e'.1 = k := by
              intro e' he' hc
              exact hknotin (List.mem_map.2 ⟨e', he', hc⟩)
            unfold readOneParameter
            rw [if_pos rfl, if_neg (not_not_intro hnumv)]
            rcases ty with _ | _ | _
            · refine ⟨_, rfl, ?_, ?_, ?_⟩
              · exact lookupParam_mapInsert_absent _ _ _ habshead
              · intro e' he'
                have := habs e' (List.mem_cons_of_mem _ he')
                rcases e' with ⟨k', ty'⟩
                rcases ty' with _ | _ | _ <;>
                  simpa [paramAbsent, lookupParam_mapInsert_ne _ _ _ _ (hne _ he')] using this
              · intro k' hk'
                exact ⟨lookupParam_mapInsert_ne _ _ _ _ hk', rfl, rfl⟩
            · refine ⟨_, rfl, ?_, ?_, ?_⟩
              · exact lookupParam_mapInsert_absent _ _ _ habshead
              · intro e' he'
                have := habs e' (List.mem_cons_of_mem _ he')
                rcases e' with ⟨k', ty'⟩
                rcases ty' with _ | _ | _ <;>
                  simpa [paramAbsent, lookupParam_mapInsert_ne _ _ _ _ (hne _ he')] using this
              · intro k' hk'
                exact ⟨rfl, lookupParam_mapInsert_ne _ _ _ _ hk', rfl⟩
            · refine ⟨_, rfl, ?_, ?_, ?_⟩
              · exact lookupParam_mapInsert_absent _ _ _ habshead
              · intro e' he'
                have := habs e' (List.mem_cons_of_mem _ he')
                rcases e' with ⟨k', ty'⟩
                rcases ty' with _ | _ | _ <;>
                  simpa [paramAbsent, lookupParam_mapInsert_ne _ _ _ _ (hne _ he')] using this
              · intro k' hk'
                exact ⟨rfl, rfl, lookupParam_mapInsert_ne _ _ _ _ hk'⟩
          obtain ⟨acc', hok, hstoredhead, habs', hagree'⟩ := hro
          obtain ⟨maps, hfold, hstored, hframe⟩ := ih acc' hndrest
            (fun e' he' => hnum e' (List.mem_cons_of_mem _ he')) habs'
          refine ⟨maps, ?_, ?_, ?_⟩
          · have hstep : paramStep 2 json acc (k, ty) = Except.ok acc' := by
              unfold paramStep
              rw [hfm]
              exact hok
            rw [hstep]
            exact hfold
          · intro e' he' w hw
            rcases List.mem_cons.1 he' with he' | he'
            · rw [he'] at hw ⊢
              rw [hfm] at hw
              cases hw
              have hag := hframe k hknotin
              rcases ty with _ | _ | _
              · show lookupParam maps.ints k = _
                rw [hag.1]
                exact hstoredhead
              · show lookupParam maps.doubles k = _
                rw [hag.2.1]
                exact hstoredhead
              · show lookupParam maps.bools k = _
                rw [hag.2.2]
                exact hstoredhead
            · exact hstored e' he' w hw
          · intro k' hk'
            rw [List.map_cons] at hk'
            have h1 : ¬ k' ∈ rest.map Prod.fst := fun hc => hk' (List.mem_cons_of_mem _ hc)
            have h2 : ¬ k' = k := fun hc => hk' (hc ▸ List.mem_cons_self _ _)
            obtain ⟨a1, a2, a3⟩ := hframe k' h1
            obtain ⟨b1, b2, b3⟩ := hagree' k' h2
            exact ⟨a1.trans b1, a2.trans b2, a3.trans b3⟩

theorem readParametersV3_error (json : List (String × JSONValue)) :
    ∀ (table : List (String × JSONParameterTypes)) (acc : ParamMaps)
      (key : String) (ty : JSONParameterTypes) (v : JSONValue),
      (key, ty) ∈ table → findMember json key = some v → typeMatches ty v = false →
      table.foldlM (paramStep 3 json) acc = .error .parseError := by
  intro table
  induction table with
  | nil =>
      intro acc key ty v hmem
      cases hmem
  | cons e rest ih =>
      intro acc key ty v hmem hfm hmis
      rw [List.foldlM_cons]
      cases hfme : findMember json e.1 with
      | none =>
          rcases List.mem_cons.1 hmem with heq | hrest
          · rw [← heq] at hfme
            rw [hfme] at hfm
            cases hfm
          · have hstep : paramStep 3 json acc e = Except.ok acc := by
              unfold paramStep
              rw [hfme]
            rw [hstep]
            exact ih acc key ty v hrest hfm hmis
      | some w =>
          rcases hr : readOneParameter 3 acc e.1 e.2 w with err | acc'
          · have herr := readOneParameter_error_parseError 3 acc e.1 e.2 w err hr
            have hstep : paramStep 3 json acc e = Except.error .parseError := by
              unfold paramStep
              rw [hfme]
              show readOneParameter 3 acc e.1 e.2 w = _
              rw [hr, herr]
            rw [hstep]
            rfl
          · rcases List.mem_cons.1 hmem with heq | hrest
            · exfalso
              rw [← heq] at hfme hr
              rw [hfme] at hfm
              cases hfm
              rw [readOneParameter_v3_mismatch acc key ty v hmis] at hr
              cases hr
            · have hstep : paramStep 3 json acc e = Except.ok acc' := by
                unfold paramStep
                rw [hfme]
                show readOneParameter 3 acc e.1 e.2 w = _
                exact hr
              rw [hstep]
              exact ih acc' key ty v hrest hfm hmis

/-- C7: reading a recognized filter-parameter block.  With project format
version 2, every recognized parameter present in the document as a JSON
number loads coerced to its declared type (truncation for `int`, non-zero
test for `bool`, exact for `double`).  With version 3, a recognized
parameter whose JSON type does not exactly match its declared type makes the
read fail with a parse error. -/
theorem readProject_parameter_versions :
    (∀ (table : List (String × JSONParameterTypes)) (json : List (String × JSONValue)),
      (table.map Prod.fst).Nodup →
      (∀ e ∈ table, numberIfPresent json e.1 = true) →
      ∃ maps, readParameters 2 table json = .ok maps ∧
        ∀ e ∈ table, ∀ v, findMember json e.1 = some v → storedCoerced maps e.1 e.2 v) ∧
    (∀ (table : List (String × JSONParameterTypes)) (json : List (String × JSONValue))
      (key : String) (ty : JSONParameterTypes) (v : JSONValue),
      (key, ty) ∈ table → findMember json key = some v → typeMatches ty v = false →
      readParameters 3 table json = .error .parseError) := by
  constructor
  · intro table json hnd hnum
    obtain ⟨maps, hfold, hstored, _⟩ := readParametersV2_go json table ⟨[], [], []⟩ hnd hnum
      (fun e _ => by rcases e with ⟨k, ty⟩; rcases ty with _ | _ | _ <;> rfl)
    exact ⟨maps, hfold, hstored⟩
  · intro table json key ty v hmem hfm hmis
    exact readParametersV3_error json table ⟨[], [], []⟩ key ty v hmem hfm hmis

/-- Witness for C7: the spec's S7 scenario.  A version-2 document with
`vfm parameters.order = 1.0` and `chroma = 0.0` loads (order as the integer
1, chroma as false, per `storedCoerced`); the same `order` in version 3 is a
parse error. -/
theorem readProject_parameter_versions_witness :
    (∃ maps, readParameters 2 vfmValidParameters
        [("order", JSONValue.jdouble 1), ("chroma", JSONValue.jdouble 0)] = .ok maps ∧
      ∀ e ∈ vfmValidParameters, ∀ v,
        findMember [("order", JSONValue.jdouble 1), ("chroma", JSONValue.jdouble 0)] e.1 =
          some v → storedCoerced maps e.1 e.2 v) ∧
    readParameters 3 vfmValidParameters [("order", JSONValue.jdouble 1)] =
      .error .parseError :=
  ⟨readProject_parameter_versions.1 vfmValidParameters _ (by decide) (by decide),
   readProject_parameter_versions.2 vfmValidParameters _ "order" .JSONParamInt
     (.jdouble 1) (by decide) (by decide) (by decide)⟩

/-!
### C9: pattern guessing from mics
-/

theorem exceptBind_ok {ε α β : Type} (x : Except ε α) (f : α → Except ε β) (a : α)
    (h : x = .ok a) : (x >>= f) = f a := by
  rw [h]
  rfl

theorem foldlM_ok {α β : Type} (f : β → α → Except WobblyError β) (P : β → Prop) :
    ∀ (l : List α) (b : β),
      (∀ c a, P c → a ∈ l → ∃ c', f c a = .ok c' ∧ P c') → P b →
      ∃ r, l.foldlM f b = .ok r ∧ P r := by
  intro l
  induction l with
  | nil =>
      intro b _ hb
      exact ⟨b, rfl, hb⟩
  | cons a l ih =>
      intro b hstep hb
      obtain ⟨c', hc', hP'⟩ := hstep b a hb (List.mem_cons_self _ _)
      obtain ⟨r, hr, hPr⟩ := ih c'
        (fun c a' hc ha' => hstep c a' hc (List.mem_cons_of_mem _ ha')) hP'
      rw [List.foldlM_cons, exceptBind_ok _ _ _ hc']
      exact ⟨r, hr, hPr⟩

theorem foldlM_ok_bound {α : Type} (f : ℤ → α → Except WobblyError ℤ) (K : ℤ) :
    ∀ (l : List α) (d0 : ℤ),
      (∀ d a, a ∈ l → ∃ e, f d a = .ok e ∧ d ≤ e ∧ e ≤ d + K) →
      ∃ d, l.foldlM f d0 = .ok d ∧ d0 ≤ d ∧ d ≤ d0 + (l.length : ℤ) * K := by
  intro l
  induction l with
  | nil =>
      intro d0 _
      exact ⟨d0, rfl, le_refl _, by simp⟩
  | cons a l ih =>
      intro d0 hstep
      obtain ⟨e, he, he1, he2⟩ := hstep d0 a (List.mem_cons_self _ _)
      obtain ⟨d, hd, hd1, hd2⟩ := ih e
        (fun d' a' ha' => hstep d' a' (List.mem_cons_of_mem _ ha'))
      rw [List.foldlM_cons, exceptBind_ok _ _ _ he]
      refine ⟨d, hd, by omega, ?_⟩
      have hlen : (((a :: l).length : ℕ) : ℤ) = (l.length : ℤ) + 1 := by
        simp
      rw [hlen]
      calc d ≤ e + (l.length : ℤ) * K := hd2
        _ ≤ d0 + K + (l.length : ℤ) * K := by omega
        _ = d0 + ((l.length : ℤ) + 1) * K := by ring

theorem foldlM_ok_progress {α β : Type} (f : β → α → Except WobblyError β)
    (Inv Good : β → Prop) (trigger : α → Prop) :
    ∀ (l : List α) (b : β),
      (∀ c a, Inv c → a ∈ l →
        ∃ c', f c a = .ok c' ∧ Inv c' ∧ (Good c → Good c') ∧ (trigger a → Good c')) →
      Inv b →
      ∃ r, l.foldlM f b = .ok r ∧ Inv r ∧
        ((Good b ∨ ∃ a ∈ l, trigger a) → Good r) := by
  intro l
  induction l with
  | nil =>
      intro b _ hb
      refine ⟨b, rfl, hb, ?_⟩
      rintro (h | ⟨a, ha, _⟩)
      · exact h
      · cases ha
  | cons a l ih =>
      intro b hstep hb
      obtain ⟨c', hc', hI', hGpres, hTrig⟩ := hstep b a hb (List.mem_cons_self _ _)
      obtain ⟨r, hr, hIr, hGr⟩ := ih c'
        (fun c a' hc ha' => hstep c a' hc (List.mem_cons_of_mem _ ha')) hI'
      rw [List.foldlM_cons, exceptBind_ok _ _ _ hc']
      refine ⟨r, hr, hIr, ?_⟩
      rintro (hG | ⟨a', ha', ht⟩)
      · exact hGr (Or.inl (hGpres hG))
      · rcases List.mem_cons.1 ha' with rfl | ha'
        · exact hGr (Or.inl (hTrig ht))
        · exact hGr (Or.inr ⟨a', ha', ht⟩)

theorem failureLookup_failureErase (l : List (ℕ × FailedPatternGuessing)) (k : ℕ) :
    failureLookup (failureErase l k) k = none := by
  unfold failureLookup
  have h : (failureErase l k).find? (fun e => e.1 = k) = none := by
    rw [List.find?_eq_none]
    intro e he
    have hmem := List.of_mem_filter he
    simp only [decide_not, Bool.not_eq_true', decide_eq_false_iff_not] at hmem
    simp [hmem]
  rw [h]
  rfl

theorem listMin_mem : ∀ (l : List ℕ) (m : ℕ), listMin l = some m → m ∈ l := by
  intro l
  induction l with
  | nil =>
      intro m h
      cases h
  | cons x xs ih =>
      intro m h
      unfold listMin at h
      cases hx : listMin xs with
      | none =>
          rw [hx] at h
          cases h
          exact List.mem_cons_self _ _
      | some m' =>
          rw [hx] at h
          cases h
          rcases min_cases x m' with ⟨hmin, _⟩ | ⟨hmin, _⟩
          · rw [hmin]
            exact List.mem_cons_self _ _
          · rw [hmin]
            exact List.mem_cons_of_mem _ (ih m' hx)

theorem findNextSectionStart_gt (p : Project) (frame s : ℕ)
    (h : findNextSectionStart p frame = some s) :
    frame < s ∧ ∃ sec ∈ p.sections, sec.start = s := by
  unfold findNextSectionStart at h
  have hmem := listMin_mem _ _ h
  rw [List.mem_filter] at hmem
  obtain ⟨hmap, hlt⟩ := hmem
  rw [List.mem_map] at hmap
  obtain ⟨sec, hsec, hstart⟩ := hmap
  exact ⟨by simpa using hlt, sec, hsec, hstart⟩

theorem setMatch_isOk (p : Project) (frame : ℕ) (ch : Char)
    (hf : frame < p.numFrames) (hch : isValidMatchChar ch = true) :
    ∃ q, setMatch p frame ch = .ok q ∧ q.numFrames = p.numFrames := by
  unfold setMatch
  rw [if_neg (not_not_intro hf), if_neg (not_not_intro hch)]
  exact ⟨_, rfl, rfl⟩

theorem getMatch_isOk (p : Project) (frame : ℕ) (hf : frame < p.numFrames) :
    ∃ ch, getMatch p frame = .ok ch := by
  unfold getMatch
  rw [if_neg (not_not_intro hf)]
  exact ⟨_, rfl⟩

theorem getMics_isOk (p : Project) (frame : ℕ) (hf : frame < p.numFrames) :
    ∃ m, getMics p frame = .ok m := by
  unfold getMics
  rw [if_neg (not_not_intro hf)]
  exact ⟨_, rfl⟩

theorem getMics_ok_bounded (p : Project) (frame : ℕ) (hf : frame < p.numFrames)
    (hmic : ∀ m ∈ p.mics, micBounded m) :
    ∃ m, getMics p frame = .ok m ∧ micBounded m := by
  unfold getMics
  rw [if_neg (not_not_intro hf)]
  refine ⟨_, rfl, ?_⟩
  by_cases he : p.mics.isEmpty
  · rw [if_neg (not_not_intro he)]
    decide
  · rw [if_pos he]
    by_cases hl : frame < p.mics.length
    · rw [List.getD_eq_getElem p.mics _ hl]
      exact hmic _ (List.getElem_mem hl)
    · rw [List.getD_eq_default p.mics _ (by omega)]
      decide

theorem atChar_bound (m : Mic5) (hm : micBounded m) (ch : Char) :
    -32768 ≤ m.atChar ch ∧ m.atChar ch ≤ 32767 := by
  obtain ⟨h1, h2, h3, h4, h5, h6, h7, h8, h9, h10⟩ := hm
  unfold Mic5.atChar
  split_ifs <;> constructor <;> omega

theorem addDecimatedFrame_isOk (p : Project) (frame : ℕ) (hf : frame < p.numFrames) :
    ∃ q, addDecimatedFrame p frame = .ok q ∧ q.numFrames = p.numFrames := by
  unfold addDecimatedFrame
  rw [if_neg (not_not_intro hf)]
  dsimp only
  split_ifs <;> exact ⟨_, rfl, rfl⟩

theorem deleteDecimatedFrame_isOk (p : Project) (frame : ℕ) (hf : frame < p.numFrames) :
    ∃ q, deleteDecimatedFrame p frame = .ok q ∧ q.numFrames = p.numFrames := by
  unfold deleteDecimatedFrame
  rw [if_neg (not_not_intro hf)]
  dsimp only
  split_ifs <;> exact ⟨_, rfl, rfl⟩

theorem isDecimatedFrame_isOk (p : Project) (frame : ℕ) (hf : frame < p.numFrames) :
    ∃ b, isDecimatedFrame p frame = .ok b := by
  unfold isDecimatedFrame
  rw [if_neg (not_not_intro hf)]
  exact ⟨_, rfl⟩

theorem clearDecimatedFramesFromCycle_isOk (p : Project) (frame : ℕ)
    (hf : frame < p.numFrames) :
    ∃ q, clearDecimatedFramesFromCycle p frame = .ok q ∧ q.numFrames = p.numFrames := by
  unfold clearDecimatedFramesFromCycle
  rw [if_neg (not_not_intro hf)]
  exact ⟨_, rfl, rfl⟩

theorem clearRangeLoop_ok (N : ℕ) (frames : List ℕ) (hfr : ∀ j ∈ frames, j < N) :
    ∀ (p : Project), p.numFrames = N →
      ∃ q, clearRangeLoop p frames = .ok q ∧ q.numFrames = N := by
  intro p hp
  unfold clearRangeLoop
  refine foldlM_ok _ (fun q => q.numFrames = N) frames p ?_ hp
  intro q j hq hj
  obtain ⟨b, hb⟩ := isDecimatedFrame_isOk q j (by rw [hq]; exact hfr j hj)
  cases b with
  | false =>
      refine ⟨q, ?_, hq⟩
      dsimp only
      rw [exceptBind_ok _ _ _ hb]
      rfl
  | true =>
      obtain ⟨q', hq', hN'⟩ := deleteDecimatedFrame_isOk q j (by rw [hq]; exact hfr j hj)
      refine ⟨q', ?_, show q'.numFrames = N by rw [hN', hq]⟩
      dsimp only
      rw [exceptBind_ok _ _ _ hb]
      exact hq'

theorem computeMicDev_ok (p : Project) (pat : List Char) (off : ℕ)
    (sStart sEnd : ℕ) (hS : sStart < p.numFrames) (hE : sEnd ≤ p.numFrames)
    (hmic : ∀ m ∈ p.mics, micBounded m) :
    ∃ d, computeMicDev p pat off sStart sEnd = .ok d ∧ 0 ≤ d ∧
      d ≤ ((sEnd - 1 - sStart : ℕ) : ℤ) * 65535 := by
  unfold computeMicDev
  have hstep : ∀ (dv : ℤ) (a : ℕ), a ∈ List.range' sStart (sEnd - 1 - sStart) →
      ∃ e, ((fun micDev frame => do
          let patternMatch := pat.getD ((frame + off) % pat.length) 'c'
          let otherMatch := if patternMatch = 'c' then 'n' else 'c'
          let frameMics ← getMics p frame
          pure (micDev + max 0 (frameMics.atChar patternMatch - frameMics.atChar otherMatch)))
          : ℤ → ℕ → Except WobblyError ℤ) dv a = .ok e ∧ dv ≤ e ∧ e ≤ dv + 65535 := by
    intro dv a ha
    have haN : a < p.numFrames := by
      rw [List.mem_range'_1] at ha
      omega
    obtain ⟨m, hm, hmb⟩ := getMics_ok_bounded p a haN hmic
    refine ⟨dv + max 0
        (m.atChar (pat.getD ((a + off) % pat.length) 'c') -
         m.atChar (if pat.getD ((a + off) % pat.length) 'c' = 'c' then 'n' else 'c')),
      ?_, ?_, ?_⟩
    · dsimp only
      rw [exceptBind_ok _ _ _ hm]
      rfl
    · have := le_max_left 0
        (m.atChar (pat.getD ((a + off) % pat.length) 'c') -
         m.atChar (if pat.getD ((a + off) % pat.length) 'c' = 'c' then 'n' else 'c'))
      omega
    · have hx := atChar_bound m hmb (pat.getD ((a + off) % pat.length) 'c')
      have hy := atChar_bound m hmb
        (if pat.getD ((a + off) % pat.length) 'c' = 'c' then 'n' else 'c')
      have hle : max 0
          (m.atChar (pat.getD ((a + off) % pat.length) 'c') -
           m.atChar (if pat.getD ((a + off) % pat.length) 'c' = 'c' then 'n' else 'c')) ≤
          (65535 : ℤ) :=
        max_le (by norm_num) (by omega)
      omega
  obtain ⟨d, hd, h1, h2⟩ :=
    foldlM_ok_bound _ 65535 (List.range' sStart (sEnd - 1 - sStart)) 0 hstep
  refine ⟨d, hd, h1, ?_⟩
  rw [List.length_range'] at h2
  omega

theorem bestOffsetForPattern_ok (p : Project) (pat : List Char) (sStart sEnd : ℕ)
    (hlen : 0 < pat.length) (hS : sStart < p.numFrames) (hE : sEnd ≤ p.numFrames)
    (hN : p.numFrames ≤ 32768) (hmic : ∀ m ∈ p.mics, micBounded m) :
    ∃ o d, bestOffsetForPattern p pat sStart sEnd = .ok (o, d) ∧
      0 ≤ o ∧ o < (pat.length : ℤ) ∧ 0 ≤ d ∧ d < intMax := by
  have hKlt : ∀ dv : ℤ, 0 ≤ dv → dv ≤ ((sEnd - 1 - sStart : ℕ) : ℤ) * 65535 →
      dv < intMax := by
    intro dv _ h
    have hle : ((sEnd - 1 - sStart : ℕ) : ℤ) ≤ 32767 := by
      have hh : sEnd - 1 - sStart ≤ 32767 := by omega
      exact_mod_cast hh
    have hmul : ((sEnd - 1 - sStart : ℕ) : ℤ) * 65535 ≤ 32767 * 65535 :=
      mul_le_mul_of_nonneg_right hle (by norm_num)
    unfold intMax
    omega
  unfold bestOffsetForPattern
  have hstep : ∀ (acc : ℤ × ℤ) (a : ℕ),
      (acc = (-1, intMax) ∨
        (0 ≤ acc.1 ∧ acc.1 < (pat.length : ℤ) ∧ 0 ≤ acc.2 ∧ acc.2 < intMax)) →
      a ∈ List.range pat.length →
      ∃ c', ((fun acc off => do
          let micDev ← computeMicDev p pat off sStart sEnd
          if micDev < acc.2 then pure ((off : ℤ), micDev) else pure acc)
          : ℤ × ℤ → ℕ → Except WobblyError (ℤ × ℤ)) acc a = .ok c' ∧
        (c' = (-1, intMax) ∨
          (0 ≤ c'.1 ∧ c'.1 < (pat.length : ℤ) ∧ 0 ≤ c'.2 ∧ c'.2 < intMax)) ∧
        ((0 ≤ acc.1 ∧ acc.1 < (pat.length : ℤ) ∧ 0 ≤ acc.2 ∧ acc.2 < intMax) →
          (0 ≤ c'.1 ∧ c'.1 < (pat.length : ℤ) ∧ 0 ≤ c'.2 ∧ c'.2 < intMax)) ∧
        (True →
          (0 ≤ c'.1 ∧ c'.1 < (pat.length : ℤ) ∧ 0 ≤ c'.2 ∧ c'.2 < intMax)) := by
    intro acc a hI ha
    obtain ⟨d, hd, hd0, hdB⟩ := computeMicDev_ok p pat a sStart sEnd hS hE hmic
    have hdlt : d < intMax := hKlt d hd0 hdB
    have halen : ((a : ℕ) : ℤ) < (pat.length : ℤ) := by
      rw [List.mem_range] at ha
      exact_mod_cast ha
    by_cases hlt : d < acc.2
    · refine ⟨((a : ℤ), d), ?_, Or.inr ⟨by positivity, halen, hd0, hdlt⟩,
        fun _ => ⟨by positivity, halen, hd0, hdlt⟩,
        fun _ => ⟨by positivity, halen, hd0, hdlt⟩⟩
      dsimp only
      rw [exceptBind_ok _ _ _ hd, if_pos hlt]
      rfl
    · rcases hI with rfl | hGacc
      · exact absurd hdlt hlt
      · refine ⟨acc, ?_, Or.inr hGacc, fun _ => hGacc, fun _ => hGacc⟩
        dsimp only
        rw [exceptBind_ok _ _ _ hd, if_neg hlt]
        rfl
  obtain ⟨r, hr, hInv, hGood⟩ := foldlM_ok_progress _
    (fun acc => acc = (-1, intMax) ∨
      (0 ≤ acc.1 ∧ acc.1 < (pat.length : ℤ) ∧ 0 ≤ acc.2 ∧ acc.2 < intMax))
    (fun acc => 0 ≤ acc.1 ∧ acc.1 < (pat.length : ℤ) ∧ 0 ≤ acc.2 ∧ acc.2 < intMax)
    (fun _ => True)
    (List.range pat.length) (-1, intMax) hstep (Or.inl rfl)
  have hG := hGood (Or.inr ⟨0, by simpa [List.mem_range] using hlen, trivial⟩)
  refine ⟨r.1, r.2, by rw [hr], hG.1, hG.2.1, hG.2.2.1, hG.2.2.2⟩

theorem selectBestPattern_ok (p : Project) (sStart sEnd : ℕ) (usePatterns : ℕ)
    (hS : sStart < p.numFrames) (hE : sEnd ≤ p.numFrames) (hN : p.numFrames ≤ 32768)
    (hmic : ∀ m ∈ p.mics, micBounded m)
    (huse : usePatterns &&& patternCCCNN ≠ 0 ∨ usePatterns &&& patternCCNNN ≠ 0 ∨
      usePatterns &&& patternCCCCC ≠ 0) :
    ∃ pat o d, selectBestPattern p sStart sEnd usePatterns = .ok (some (pat, o), d) ∧
      (pat = ['c', 'c', 'c', 'n', 'n'] ∨ pat = ['c', 'c', 'n', 'n', 'n'] ∨ pat = ['c']) ∧
      0 ≤ o ∧ o < (pat.length : ℤ) ∧ 0 ≤ d ∧ d < intMax := by
  unfold selectBestPattern
  have hstep : ∀ (best : Option (List Char × ℤ) × ℤ) (c : Bool × List Char),
      (best = (none, intMax) ∨ goodBest best) →
      c ∈ micsPatternCandidates usePatterns →
      ∃ c', ((fun best c => do
          if ¬ c.1 then pure best
          else do
            let od ← bestOffsetForPattern p c.2 sStart sEnd
            if od.2 < best.2 then pure (some (c.2, od.1), od.2) else pure best)
          : Option (List Char × ℤ) × ℤ → Bool × List Char →
            Except WobblyError (Option (List Char × ℤ) × ℤ)) best c = .ok c' ∧
        (c' = (none, intMax) ∨ goodBest c') ∧
        (goodBest best → goodBest c') ∧ (c.1 = true → goodBest c') := by
    intro best c hI hc
    have hpat2 : c.2 = ['c', 'c', 'c', 'n', 'n'] ∨ c.2 = ['c', 'c', 'n', 'n', 'n'] ∨
        c.2 = ['c'] := by
      simp only [micsPatternCandidates, List.mem_cons, List.not_mem_nil, or_false] at hc
      rcases hc with rfl | rfl | rfl <;> simp
    have hlen : 0 < c.2.length := by
      rcases hpat2 with h | h | h <;> rw [h] <;> decide
    by_cases hg : c.1 = true
    · obtain ⟨o, d, hod, ho0, holt, hd0, hdlt⟩ :=
        bestOffsetForPattern_ok p c.2 sStart sEnd hlen hS hE hN hmic
      by_cases hlt : d < best.2
      · refine ⟨(some (c.2, o), d), ?_, Or.inr ⟨c.2, o, d, rfl, hpat2, ho0, holt, hd0, hdlt⟩,
          fun _ => ⟨c.2, o, d, rfl, hpat2, ho0, holt, hd0, hdlt⟩,
          fun _ => ⟨c.2, o, d, rfl, hpat2, ho0, holt, hd0, hdlt⟩⟩
        dsimp only
        rw [if_neg (not_not_intro hg), exceptBind_ok _ _ _ hod]
        dsimp only
        rw [if_pos hlt]
        rfl
      · rcases hI with rfl | hGb
        · exact absurd hdlt hlt
        · refine ⟨best, ?_, Or.inr hGb, fun _ => hGb, fun _ => hGb⟩
          dsimp only
          rw [if_neg (not_not_intro hg), exceptBind_ok _ _ _ hod]
          dsimp only
          rw [if_neg hlt]
          rfl
    · refine ⟨best, ?_, hI, fun hGb => hGb, fun ht => absurd ht hg⟩
      dsimp only
      rw [if_pos hg]
      rfl
  obtain ⟨r, hr, hInv, hGood⟩ := foldlM_ok_progress _
    (fun b => b = (none, intMax) ∨ goodBest b) goodBest (fun c => c.1 = true)
    (micsPatternCandidates usePatterns) (none, intMax) hstep (Or.inl rfl)
  have hG : goodBest r := by
    refine hGood (Or.inr ?_)
    rcases huse with h | h | h
    · exact ⟨(decide (usePatterns &&& patternCCCNN ≠ 0), ['c', 'c', 'c', 'n', 'n']),
        by simp [micsPatternCandidates], by simp [h]⟩
    · exact ⟨(decide (usePatterns &&& patternCCNNN ≠ 0), ['c', 'c', 'n', 'n', 'n']),
        by simp [micsPatternCandidates], by simp [h]⟩
    · exact ⟨(decide (usePatterns &&& patternCCCCC ≠ 0), ['c']),
        by simp [micsPatternCandidates], by simp [h]⟩
  obtain ⟨pat, o, d, hrEq, hpat, ho0, holt, hd0, hdlt⟩ := hG
  refine ⟨pat, o, d, ?_, hpat, ho0, holt, hd0, hdlt⟩
  rw [hr, hrEq]

theorem guardStep_ok (N sStart sEnd : ℕ) (i : ℕ) (drop : ℤ) (p' : Project)
    (hpN : p'.numFrames = N) (h2 : sEnd ≤ N) :
    ∃ r : Project × ℤ,
      ((if (sStart : ℤ) ≤ (i * 5 : ℤ) + drop ∧ (i * 5 : ℤ) + drop < (sEnd : ℤ) then
        addDecimatedFrame p' ((i * 5 : ℤ) + drop).toNat >>= fun p => pure (p, drop)
      else pure (p', drop)) : Except WobblyError (Project × ℤ)) = .ok r ∧
      r.1.numFrames = N := by
  by_cases hg : (sStart : ℤ) ≤ (i * 5 : ℤ) + drop ∧ (i * 5 : ℤ) + drop < (sEnd : ℤ)
  · obtain ⟨hg1, hg2⟩ := hg
    rw [if_pos ⟨hg1, hg2⟩]
    obtain ⟨p'', hp'', hpN'⟩ := addDecimatedFrame_isOk p' ((i * 5 : ℤ) + drop).toNat
      (by rw [hpN]; omega)
    rw [exceptBind_ok _ _ _ hp'']
    exact ⟨(p'', drop), rfl, show p''.numFrames = N by rw [hpN', hpN]⟩
  · rw [if_neg hg]
    exact ⟨(p', drop), rfl, hpN⟩

theorem cycleCore_ok (N sStart sEnd : ℕ) (q : Project) (i : ℕ) (drop : ℤ)
    (hq : q.numFrames = N) (h1 : sStart < sEnd) (h2 : sEnd ≤ N)
    (hcycle : 5 * (sStart / 5 + 1) ≤ N) (hiL : i ≤ (sEnd - 1) / 5) :
    ∃ r : Project × ℤ,
      ((if i = sStart / 5 then
          clearRangeLoop q (List.range' sStart ((i + 1) * 5 - sStart)) >>= fun p =>
            if (sStart : ℤ) ≤ (i * 5 : ℤ) + drop ∧ (i * 5 : ℤ) + drop < (sEnd : ℤ) then
              addDecimatedFrame p ((i * 5 : ℤ) + drop).toNat >>= fun p => pure (p, drop)
            else pure (p, drop)
        else if i = (sEnd - 1) / 5 then
          clearRangeLoop q (List.range' (i * 5) (sEnd - i * 5)) >>= fun p =>
            if (sStart : ℤ) ≤ (i * 5 : ℤ) + drop ∧ (i * 5 : ℤ) + drop < (sEnd : ℤ) then
              addDecimatedFrame p ((i * 5 : ℤ) + drop).toNat >>= fun p => pure (p, drop)
            else pure (p, drop)
        else
          clearDecimatedFramesFromCycle q (i * 5) >>= fun p =>
            if (sStart : ℤ) ≤ (i * 5 : ℤ) + drop ∧ (i * 5 : ℤ) + drop < (sEnd : ℤ) then
              addDecimatedFrame p ((i * 5 : ℤ) + drop).toNat >>= fun p => pure (p, drop)
            else pure (p, drop)) : Except WobblyError (Project × ℤ)) = .ok r ∧
      r.1.numFrames = N := by
  by_cases hF : i = sStart / 5
  · rw [if_pos hF]
    obtain ⟨p', hp', hpN⟩ : ∃ p',
        clearRangeLoop q (List.range' sStart ((i + 1) * 5 - sStart)) = .ok p' ∧
        p'.numFrames = N := by
      refine clearRangeLoop_ok N _ ?_ q hq
      intro j hj
      rw [List.mem_range'_1] at hj
      omega
    rw [exceptBind_ok _ _ _ hp']
    exact guardStep_ok N sStart sEnd i drop p' hpN h2
  · rw [if_neg hF]
    by_cases hL : i = (sEnd - 1) / 5
    · rw [if_pos hL]
      obtain ⟨p', hp', hpN⟩ : ∃ p',
          clearRangeLoop q (List.range' (i * 5) (sEnd - i * 5)) = .ok p' ∧
          p'.numFrames = N := by
        refine clearRangeLoop_ok N _ ?_ q hq
        intro j hj
        rw [List.mem_range'_1] at hj
        omega
      rw [exceptBind_ok _ _ _ hp']
      exact guardStep_ok N sStart sEnd i drop p' hpN h2
    · rw [if_neg hL]
      obtain ⟨p', hp', hn⟩ := clearDecimatedFramesFromCycle_isOk q (i * 5)
        (by rw [hq]; omega)
      rw [exceptBind_ok _ _ _ hp']
      exact guardStep_ok N sStart sEnd i drop p' (by rw [hn, hq]) h2

theorem decimationCycleBody_ok (N sStart sEnd : ℕ) (fd : ℤ) (dd : DropDuplicate)
    (acc : Project × ℤ) (i : ℕ)
    (hP : acc.1.numFrames = N)
    (h1 : sStart < sEnd) (h2 : sEnd ≤ N)
    (hcycle : 5 * (sStart / 5 + 1) ≤ N)
    (hfd0 : 0 ≤ fd) (hfd4 : fd ≤ 4)
    (hddc : dd = .dropUglierDuplicatePerCycle → fd ≤ 3)
    (hiF : sStart / 5 ≤ i) (hiL : i ≤ (sEnd - 1) / 5) :
    ∃ acc', decimationCycleBody sStart sEnd (sStart / 5) ((sEnd - 1) / 5) fd dd acc i =
      .ok acc' ∧ acc'.1.numFrames = N := by
  unfold decimationCycleBody
  dsimp only
  by_cases hdd : dd = DropDuplicate.dropUglierDuplicatePerCycle
  · rw [if_pos hdd]
    by_cases hif : i = sStart / 5
    · rw [if_pos hif]
      by_cases ha1 : ((sStart % 5 : ℕ) : ℤ) > fd + 1
      · rw [if_pos ha1]
        exact ⟨acc, rfl, hP⟩
      · rw [if_neg ha1]
        by_cases ha2 : ((sStart % 5 : ℕ) : ℤ) > fd
        · rw [if_pos ha2]
          dsimp only
          rw [if_neg (fun hc : _ ∧ fd + 1 = -1 => absurd hc.2 (by omega))]
          obtain ⟨r, hr, hrN⟩ := cycleCore_ok N sStart sEnd acc.1 i (fd + 1) hP h1 h2 hcycle hiL
          exact ⟨r, hr, hrN⟩
        · rw [if_neg ha2]
          dsimp only
          by_cases hm1 : acc.2 = -1
          · rw [if_pos ⟨hdd, hm1⟩]
            have hfd3 := hddc hdd
            obtain ⟨mN, hmN⟩ := getMics_isOk acc.1 ((i * 5 : ℤ) + fd).toNat
              (by rw [hP]; omega)
            rw [exceptBind_ok _ _ _ hmN]
            obtain ⟨mC, hmC⟩ := getMics_isOk acc.1 ((i * 5 : ℤ) + fd + 1).toNat
              (by rw [hP]; omega)
            rw [exceptBind_ok _ _ _ hmC]
            obtain ⟨r, hr, hrN⟩ := cycleCore_ok N sStart sEnd acc.1 i
              (if mN.n > mC.c then fd else (fd + 1).emod 5) hP h1 h2 hcycle hiL
            exact ⟨r, hr, hrN⟩
          · rw [if_neg (fun hc : _ ∧ acc.2 = -1 => hm1 hc.2)]
            obtain ⟨r, hr, hrN⟩ := cycleCore_ok N sStart sEnd acc.1 i acc.2 hP h1 h2 hcycle hiL
            exact ⟨r, hr, hrN⟩
    · rw [if_neg hif]
      by_cases hil : i = (sEnd - 1) / 5
      · rw [if_pos hil]
        by_cases hb1 : (((sEnd - 1) % 5 : ℕ) : ℤ) < fd
        · rw [if_pos hb1]
          exact ⟨acc, rfl, hP⟩
        · rw [if_neg hb1]
          by_cases hb2 : (((sEnd - 1) % 5 : ℕ) : ℤ) < fd + 1
          · rw [if_pos hb2]
            dsimp only
            rw [if_neg (fun hc : _ ∧ fd = -1 => absurd hc.2 (by omega))]
            obtain ⟨r, hr, hrN⟩ := cycleCore_ok N sStart sEnd acc.1 i fd hP h1 h2 hcycle hiL
            exact ⟨r, hr, hrN⟩
          · rw [if_neg hb2]
            dsimp only
            by_cases hm1 : acc.2 = -1
            · rw [if_pos ⟨hdd, hm1⟩]
              have hfd3 := hddc hdd
              obtain ⟨mN, hmN⟩ := getMics_isOk acc.1 ((i * 5 : ℤ) + fd).toNat
                (by rw [hP]; omega)
              rw [exceptBind_ok _ _ _ hmN]
              obtain ⟨mC, hmC⟩ := getMics_isOk acc.1 ((i * 5 : ℤ) + fd + 1).toNat
                (by rw [hP]; omega)
              rw [exceptBind_ok _ _ _ hmC]
              obtain ⟨r, hr, hrN⟩ := cycleCore_ok N sStart sEnd acc.1 i
                (if mN.n > mC.c then fd else (fd + 1).emod 5) hP h1 h2 hcycle hiL
              exact ⟨r, hr, hrN⟩
            · rw [if_neg (fun hc : _ ∧ acc.2 = -1 => hm1 hc.2)]
              obtain ⟨r, hr, hrN⟩ := cycleCore_ok N sStart sEnd acc.1 i acc.2 hP h1 h2 hcycle hiL
              exact ⟨r, hr, hrN⟩
      · rw [if_neg hil]
        dsimp only
        by_cases hm1 : acc.2 = -1
        · rw [if_pos ⟨hdd, hm1⟩]
          have hfd3 := hddc hdd
          have hmid : i < (sEnd - 1) / 5 := lt_of_le_of_ne hiL hil
          obtain ⟨mN, hmN⟩ := getMics_isOk acc.1 ((i * 5 : ℤ) + fd).toNat
            (by rw [hP]; omega)
          rw [exceptBind_ok _ _ _ hmN]
          obtain ⟨mC, hmC⟩ := getMics_isOk acc.1 ((i * 5 : ℤ) + fd + 1).toNat
            (by rw [hP]; omega)
          rw [exceptBind_ok _ _ _ hmC]
          obtain ⟨r, hr, hrN⟩ := cycleCore_ok N sStart sEnd acc.1 i
            (if mN.n > mC.c then fd else (fd + 1).emod 5) hP h1 h2 hcycle hiL
          exact ⟨r, hr, hrN⟩
        · rw [if_neg (fun hc : _ ∧ acc.2 = -1 => hm1 hc.2)]
          obtain ⟨r, hr, hrN⟩ := cycleCore_ok N sStart sEnd acc.1 i acc.2 hP h1 h2 hcycle hiL
          exact ⟨r, hr, hrN⟩
  · rw [if_neg hdd]
    dsimp only
    rw [if_neg (fun hc : dd = _ ∧ acc.2 = -1 => hdd hc.1)]
    obtain ⟨r, hr, hrN⟩ := cycleCore_ok N sStart sEnd acc.1 i acc.2 hP h1 h2 hcycle hiL
    exact ⟨r, hr, hrN⟩

theorem applyPatternGuessingDecimation_ok (p : Project) (sStart sEnd : ℕ) (fd : ℤ)
    (dd : DropDuplicate) (h1 : sStart < sEnd) (h2 : sEnd ≤ p.numFrames)
    (hcycle : 5 * (sStart / 5 + 1) ≤ p.numFrames)
    (hfd0 : 0 ≤ fd) (hfd4 : fd ≤ 4) :
    ∃ q, applyPatternGuessingDecimation p sStart sEnd fd dd = .ok q ∧
      q.numFrames = p.numFrames := by
  unfold applyPatternGuessingDecimation
  dsimp only
  set D := if dd = DropDuplicate.dropUglierDuplicatePerCycle ∧ fd = 4 then
      DropDuplicate.dropUglierDuplicatePerSection else dd with hD
  have hddc : D = DropDuplicate.dropUglierDuplicatePerCycle → fd ≤ 3 := by
    intro hDc
    rw [hD] at hDc
    by_cases hcond : dd = DropDuplicate.dropUglierDuplicatePerCycle ∧ fd = 4
    · rw [if_pos hcond] at hDc
      cases hDc
    · rw [if_neg hcond] at hDc
      have hne : fd ≠ 4 := fun h4 => hcond ⟨hDc, h4⟩
      omega
  have hfinish : ∀ dv : ℤ, ∃ q,
      ((List.range' (sStart / 5) ((sEnd - 1) / 5 + 1 - sStart / 5)).foldlM
        (decimationCycleBody sStart sEnd (sStart / 5) ((sEnd - 1) / 5) fd D) (p, dv) >>=
        fun acc => (pure acc.1 : Except WobblyError Project)) = .ok q ∧
      q.numFrames = p.numFrames := by
    intro dv
    have hstep2 : ∀ (acc : Project × ℤ) (a : ℕ), acc.1.numFrames = p.numFrames →
        a ∈ List.range' (sStart / 5) ((sEnd - 1) / 5 + 1 - sStart / 5) →
        ∃ acc', decimationCycleBody sStart sEnd (sStart / 5) ((sEnd - 1) / 5) fd D acc a =
          .ok acc' ∧ acc'.1.numFrames = p.numFrames := by
      intro acc a hacc ha
      rw [List.mem_range'_1] at ha
      exact decimationCycleBody_ok p.numFrames sStart sEnd fd D acc a hacc h1 h2 hcycle
        hfd0 hfd4 hddc (by omega) (by omega)
    obtain ⟨r, hrf, hrN⟩ := foldlM_ok _ (fun acc => acc.1.numFrames = p.numFrames) _
      (p, dv) hstep2 rfl
    rw [exceptBind_ok _ _ _ hrf]
    exact ⟨r.1, rfl, hrN⟩
  by_cases hps : D = DropDuplicate.dropUglierDuplicatePerSection
  · rw [if_pos hps]
    have hstep : ∀ (c : ℕ × ℕ) (a : ℕ), True →
        a ∈ List.range' sStart (min sEnd (p.numFrames - 1) - sStart) →
        ∃ c', uglierCountBody p fd c a = .ok c' ∧ True := by
      intro c a _ ha
      rw [List.mem_range'_1] at ha
      have hminl : min sEnd (p.numFrames - 1) ≤ p.numFrames - 1 := min_le_right _ _
      unfold uglierCountBody
      by_cases hfdq : ((a % 5 : ℕ) : ℤ) = fd
      · rw [if_pos hfdq]
        obtain ⟨mN, hmN⟩ := getMics_isOk p a (by omega)
        rw [exceptBind_ok _ _ _ hmN]
        obtain ⟨mC, hmC⟩ := getMics_isOk p (a + 1) (by omega)
        rw [exceptBind_ok _ _ _ hmC]
        by_cases hcmp : mN.n > mC.c
        · rw [if_pos hcmp]
          exact ⟨_, rfl, trivial⟩
        · rw [if_neg hcmp]
          exact ⟨_, rfl, trivial⟩
      · rw [if_neg hfdq]
        exact ⟨c, rfl, trivial⟩
    obtain ⟨counts, hcounts, _⟩ := foldlM_ok (uglierCountBody p fd) (fun _ => True)
      (List.range' sStart (min sEnd (p.numFrames - 1) - sStart)) (0, 0) hstep trivial
    rw [exceptBind_ok _ _ _ hcounts]
    exact hfinish (if counts.1 > counts.2 then fd else (fd + 1).emod 5)
  · rw [if_neg hps]
    by_cases hp1 : D = DropDuplicate.dropFirstDuplicate
    · rw [if_pos hp1]
      exact hfinish fd
    · rw [if_neg hp1]
      by_cases hp2 : D = DropDuplicate.dropSecondDuplicate
      · rw [if_pos hp2]
        exact hfinish ((fd + 1).emod 5)
      · rw [if_neg hp2]
        exact hfinish (-1)

theorem getD_validMatch (pat : List Char)
    (h : ∀ c ∈ pat, isValidMatchChar c = true) (n : ℕ) :
    isValidMatchChar (pat.getD n 'c') = true := by
  by_cases hn : n < pat.length
  · rw [List.getD_eq_getElem pat 'c' hn]
    exact h _ (List.getElem_mem hn)
  · rw [List.getD_eq_default pat 'c' (by omega)]
    decide

theorem guessAssignLoop_ok (p : Project) (pat : List Char) (off : ℤ)
    (sStart sEnd : ℕ) (hE : sEnd ≤ p.numFrames)
    (hpat : ∀ c ∈ pat, isValidMatchChar c = true) :
    ∃ q, guessAssignLoop pat off p sStart sEnd = .ok q ∧
      q.numFrames = p.numFrames := by
  unfold guessAssignLoop
  refine foldlM_ok _ (fun q => q.numFrames = p.numFrames) _ p ?_ rfl
  intro q i hq hi
  rw [List.mem_range'_1] at hi
  obtain ⟨q', hq', hN⟩ := setMatch_isOk q i
    (pat.getD (((i : ℤ) + off).emod (pat.length : ℤ)).toNat 'c')
    (by rw [hq]; omega) (getD_validMatch pat hpat _)
  exact ⟨q', hq', show q'.numFrames = p.numFrames by rw [hN, hq]⟩

theorem boundaryFixN_ok (p : Project) (sEnd : ℕ) (h0 : 0 < sEnd) :
    ∃ q, boundaryFixN p sEnd = .ok q ∧ q.numFrames = p.numFrames := by
  unfold boundaryFixN
  by_cases hEq : sEnd = p.numFrames
  · rw [if_pos hEq]
    obtain ⟨ch, hch⟩ := getMatch_isOk p (sEnd - 1) (by omega)
    rw [exceptBind_ok _ _ _ hch]
    by_cases hn : ch = 'n'
    · rw [if_pos hn]
      exact setMatch_isOk p (sEnd - 1) 'b' (by omega) (by decide)
    · rw [if_neg hn]
      exact ⟨p, rfl, rfl⟩
  · rw [if_neg hEq]
    exact ⟨p, rfl, rfl⟩

theorem micBoundaryFix_ok (p : Project) (sEnd : ℕ) (h0 : 0 < sEnd)
    (hE : sEnd ≤ p.numFrames) :
    ∃ q, micBoundaryFix p sEnd = .ok q ∧ q.numFrames = p.numFrames := by
  unfold micBoundaryFix
  obtain ⟨ch, hch⟩ := getMatch_isOk p (sEnd - 1) (by omega)
  rw [exceptBind_ok _ _ _ hch]
  by_cases hn : ch = 'n'
  · rw [if_pos hn]
    obtain ⟨m, hm⟩ := getMics_isOk p (sEnd - 1) (by omega)
    rw [exceptBind_ok _ _ _ hm]
    by_cases hc : m.n > m.b * 2
    · rw [if_pos hc]
      exact setMatch_isOk p (sEnd - 1) 'b' (by omega) (by decide)
    · rw [if_neg hc]
      exact ⟨p, rfl, rfl⟩
  · rw [if_neg hn]
    exact ⟨p, rfl, rfl⟩

theorem applyDecimationStage_ok (p : Project) (sStart sEnd : ℕ) (pat : List Char)
    (off : ℤ) (dd : DropDuplicate) (h1 : sStart < sEnd) (h2 : sEnd ≤ p.numFrames)
    (hcycle : 5 * (sStart / 5 + 1) ≤ p.numFrames)
    (hoff0 : 0 ≤ off) (hoff4 : off ≤ 4) :
    ∃ q, applyDecimationStage p sStart sEnd pat off dd = .ok q ∧
      q.numFrames = p.numFrames := by
  unfold applyDecimationStage
  by_cases hc : pat = ['c']
  · rw [if_pos hc]
    refine foldlM_ok _ (fun q => q.numFrames = p.numFrames) _ p ?_ rfl
    intro q j hq hj
    rw [List.mem_range'_1] at hj
    obtain ⟨q', hq', hN⟩ := deleteDecimatedFrame_isOk q j (by rw [hq]; omega)
    exact ⟨q', hq', show q'.numFrames = p.numFrames by rw [hN, hq]⟩
  · rw [if_neg hc]
    exact applyPatternGuessingDecimation_ok p sStart sEnd (4 - off) dd h1 h2 hcycle
      (by omega) (by omega)

theorem guessSuccessPath_ok (p : Project) (sStart sEnd : ℕ) (pat : List Char)
    (off : ℤ) (dd : DropDuplicate)
    (h1 : sStart < sEnd) (h2 : sEnd ≤ p.numFrames)
    (hcycle : 5 * (sStart / 5 + 1) ≤ p.numFrames)
    (hpat : ∀ c ∈ pat, isValidMatchChar c = true)
    (hoff0 : 0 ≤ off) (hoff4 : off ≤ 4) :
    ∃ q, guessSuccessPath p sStart sEnd pat off dd = .ok (true, q) ∧
      failureLookup q.patternGuessing.failures sStart = none := by
  unfold guessSuccessPath
  obtain ⟨p1, hp1, hN1⟩ := guessAssignLoop_ok p pat off sStart sEnd h2 hpat
  rw [exceptBind_ok _ _ _ hp1]
  obtain ⟨p2, hp2, hN2⟩ := boundaryFixN_ok p1 sEnd (by omega)
  rw [exceptBind_ok _ _ _ hp2]
  obtain ⟨p3, hp3, hN3⟩ := micBoundaryFix_ok p2 sEnd (by omega)
    (by rw [hN2, hN1]; exact h2)
  rw [exceptBind_ok _ _ _ hp3]
  obtain ⟨p4, hp4, hN4⟩ := applyDecimationStage_ok p3 sStart sEnd pat off dd h1
    (by rw [hN3, hN2, hN1]; exact h2) (by rw [hN3, hN2, hN1]; exact hcycle)
    hoff0 hoff4
  rw [exceptBind_ok _ _ _ hp4]
  exact ⟨eraseFailureStage p4 sStart, rfl,
    failureLookup_failureErase p4.patternGuessing.failures sStart⟩

/-- C9 counterexample: on a 6-frame project whose second section `[5, 6)`
lies in the trailing, incomplete decimation cycle, the success path's
first-cycle clear loop runs `j` up to `(first_cycle + 1) * 5 = 10 > 6` and
`isDecimatedFrame(j)` throws: the call raises OutOfRange instead of applying
the pattern and returning true. -/
theorem guessSectionPatternsFromMics_counterexample :
    guessSectionPatternsFromMics tailSectionProject6 5 0 7 .dropFirstDuplicate =
      .error .outOfRange := by
  decide

/-- C9: for every project with mics present, at most 32768 frames,
`int16_t`-ranged mic values, every section start in range, at least one
candidate pattern enabled, and an existing section whose start lies in a
complete decimation cycle (`5 * (section_start / 5 + 1) ≤
num_frames_source`), `guess_section_patterns_from_mics` never raises on
guessing failure: if `section_end - section_start - 1 < minimum_length` it
records a SectionTooShort failure keyed by the section start and returns
false; else if the best candidate's `mic_dev` exceeds `section_end -
section_start - 1` it records an AmbiguousMatchPattern failure and returns
false; otherwise it applies the pattern, erases any failure entry for the
section start, and returns true.  Without the complete-first-cycle
hypothesis the property fails (the success path can raise OutOfRange from
the clear-decimated-frames loop). -/
theorem guessSectionPatternsFromMics_spec (p : Project) (sectionStart : ℕ)
    (minimumLength : ℤ) (usePatterns : ℕ) (dropDuplicate : DropDuplicate)
    (hmics : p.mics.isEmpty = false)
    (hex : sectionExists p sectionStart = true)
    (hsecs : ∀ s ∈ p.sections, s.start < p.numFrames)
    (hN : p.numFrames ≤ 32768)
    (hmic : ∀ m ∈ p.mics, micBounded m)
    (huse : usePatterns &&& patternCCCNN ≠ 0 ∨ usePatterns &&& patternCCNNN ≠ 0 ∨
      usePatterns &&& patternCCCCC ≠ 0)
    (hcycle : 5 * (sectionStart / 5 + 1) ≤ p.numFrames) :
    ∃ sectionEnd, getSectionEnd p sectionStart = .ok sectionEnd ∧
      sectionStart < sectionEnd ∧ sectionEnd ≤ p.numFrames ∧
      (if ((sectionEnd : ℤ) - (sectionStart : ℤ) - 1) < minimumLength then
        guessSectionPatternsFromMics p sectionStart minimumLength usePatterns dropDuplicate =
          .ok (false, recordFailure p sectionStart .sectionTooShort)
      else ∃ pat off dev,
        selectBestPattern p sectionStart sectionEnd usePatterns = .ok (some (pat, off), dev) ∧
        (if dev > ((sectionEnd : ℤ) - (sectionStart : ℤ) - 1) then
          guessSectionPatternsFromMics p sectionStart minimumLength usePatterns dropDuplicate =
            .ok (false, recordFailure p sectionStart .ambiguousMatchPattern)
        else ∃ q,
          guessSectionPatternsFromMics p sectionStart minimumLength usePatterns dropDuplicate =
            .ok (true, q) ∧
          failureLookup q.patternGuessing.failures sectionStart = none)) := by
  have hlt : sectionStart < p.numFrames := by
    unfold sectionExists at hex
    rw [List.any_eq_true] at hex
    obtain ⟨s, hs, hss⟩ := hex
    simp only [decide_eq_true_eq] at hss
    exact hss ▸ hsecs s hs
  obtain ⟨sEnd, hse, hgt, hle⟩ : ∃ sEnd, getSectionEnd p sectionStart = .ok sEnd ∧
      sectionStart < sEnd ∧ sEnd ≤ p.numFrames := by
    unfold getSectionEnd
    rw [if_neg (not_not_intro hlt)]
    cases hns : findNextSectionStart p sectionStart with
    | none => exact ⟨p.numFrames, rfl, hlt, le_refl _⟩
    | some s =>
        obtain ⟨hlt2, sec, hsec, hstart⟩ := findNextSectionStart_gt p sectionStart s hns
        exact ⟨s, rfl, hlt2, by rw [← hstart]; exact le_of_lt (hsecs sec hsec)⟩
  refine ⟨sEnd, hse, hgt, hle, ?_⟩
  split_ifs with hshort
  · unfold guessSectionPatternsFromMics
    rw [if_neg (by simp [hmics]), if_neg (not_not_intro hlt),
      if_neg (not_not_intro hex), exceptBind_ok _ _ _ hse, if_pos hshort]
    rfl
  · obtain ⟨pat, off, dev, hsel, hpatO, hoff0, hofflt, hdev0, hdevlt⟩ :=
      selectBestPattern_ok p sectionStart sEnd usePatterns hlt hle hN hmic huse
    refine ⟨pat, off, dev, hsel, ?_⟩
    split_ifs with hamb
    · unfold guessSectionPatternsFromMics
      rw [if_neg (by simp [hmics]), if_neg (not_not_intro hlt),
        if_neg (not_not_intro hex), exceptBind_ok _ _ _ hse, if_neg hshort,
        exceptBind_ok _ _ _ hsel]
      show (if dev > ((sEnd : ℤ) - (sectionStart : ℤ) - 1) then
          pure (false, recordFailure p sectionStart .ambiguousMatchPattern)
        else guessSuccessPath p sectionStart sEnd pat off dropDuplicate) = _
      rw [if_pos hamb]
      rfl
    · have hvalid : ∀ c ∈ pat, isValidMatchChar c = true := by
        rcases hpatO with rfl | rfl | rfl <;> decide
      have hlen5 : (pat.length : ℤ) ≤ 5 := by
        rcases hpatO with rfl | rfl | rfl <;> norm_num
      have hoff4 : off ≤ 4 := by omega
      obtain ⟨q, hq, hfl⟩ := guessSuccessPath_ok p sectionStart sEnd pat off
        dropDuplicate hgt hle hcycle hvalid hoff0 hoff4
      refine ⟨q, ?_, hfl⟩
      unfold guessSectionPatternsFromMics
      rw [if_neg (by simp [hmics]), if_neg (not_not_intro hlt),
        if_neg (not_not_intro hex), exceptBind_ok _ _ _ hse, if_neg hshort,
        exceptBind_ok _ _ _ hsel]
      show (if dev > ((sEnd : ℤ) - (sectionStart : ℤ) - 1) then
          pure (false, recordFailure p sectionStart .ambiguousMatchPattern)
        else guessSuccessPath p sectionStart sEnd pat off dropDuplicate) = _
      rw [if_neg hamb]
      exact hq

/-- Witness for C9: the spec's S4 scenario shape.  A 25-frame project with
mics and the single section `[0, 25)`; all hypotheses hold concretely (mics
present and `int16_t`-ranged, one full pattern mask, the section starts at
a cycle boundary), and the theorem yields the branch conclusion. -/
theorem guessSectionPatternsFromMics_spec_witness :
    (micProject25.mics.isEmpty = false ∧
     sectionExists micProject25 0 = true ∧
     (∀ s ∈ micProject25.sections, s.start < micProject25.numFrames) ∧
     micProject25.numFrames ≤ 32768 ∧
     (∀ m ∈ micProject25.mics, micBounded m) ∧
     (7 : ℕ) &&& patternCCCNN ≠ 0 ∧
     5 * ((0 : ℕ) / 5 + 1) ≤ micProject25.numFrames) ∧
    (∃ sectionEnd, getSectionEnd micProject25 0 = .ok sectionEnd ∧
      0 < sectionEnd ∧ sectionEnd ≤ micProject25.numFrames ∧
      (if ((sectionEnd : ℤ) - ((0 : ℕ) : ℤ) - 1) < (10 : ℤ) then
        guessSectionPatternsFromMics micProject25 0 10 7 .dropFirstDuplicate =
          .ok (false, recordFailure micProject25 0 .sectionTooShort)
      else ∃ pat off dev,
        selectBestPattern micProject25 0 sectionEnd 7 = .ok (some (pat, off), dev) ∧
        (if dev > ((sectionEnd : ℤ) - ((0 : ℕ) : ℤ) - 1) then
          guessSectionPatternsFromMics micProject25 0 10 7 .dropFirstDuplicate =
            .ok (false, recordFailure micProject25 0 .ambiguousMatchPattern)
        else ∃ q,
          guessSectionPatternsFromMics micProject25 0 10 7 .dropFirstDuplicate =
            .ok (true, q) ∧
          failureLookup q.patternGuessing.failures 0 = none))) :=
  ⟨⟨by decide, by decide, by decide, by decide, by decide, by decide, by decide⟩,
   guessSectionPatternsFromMics_spec micProject25 0 10 7 .dropFirstDuplicate
     (by decide) (by decide) (by decide) (by decide) (by decide)
     (Or.inl (by decide)) (by decide)⟩

end Wobbly
